import Mathlib

/-!
Shallow embedding of the sara_ecs entity-component store.

Rust TypeId values are modelled as natural numbers; a dynamically typed
component value is a pair of its TypeId and a natural-number payload.
HashMap fields are modelled as association lists (insertion order for fresh
keys, in-place replacement for existing keys, which matches the observable
behaviour of HashMap::insert together with HashMap::len).  u32 masks are
modelled as Nat: every mask the code builds is a union of bits 2 ^ k with
k below the number of registered types, and the spec declares more than 32
registrations undefined, so no wrap-around is reachable.  A Rust panic
(out-of-bounds Vec index, Option::unwrap on None) is the OpResult.fatal
outcome, which has no successor state.
-/

inductive ECSError where
  | CreateComponentNeverCalled
  | ComponentNotRegistered
  | EntityDoesNotExist
  | ComponentDoesNotExist
  | DowncastToWrongType
  | ResourceAlreadyRegistered
deriving DecidableEq, Repr

inductive OpResult (α : Type) where
  | ok : α → OpResult α
  | err : ECSError → OpResult α
  | fatal : OpResult α
deriving DecidableEq, Repr

/-- A dynamically typed component value: its runtime TypeId plus payload. -/
structure CompData where
  ty : Nat
  val : Nat
deriving DecidableEq, Repr

/-- Association-list lookup, mirroring HashMap::get. -/
def alistFind {α : Type} (k : Nat) : List (Nat × α) → Option α
  | [] => none
  | (k2, v) :: rest => if k2 = k then some v else alistFind k rest

/-- Association-list insert, mirroring HashMap::insert: replace the value of
an existing key in place, append a fresh key at the end. -/
def alistInsert {α : Type} (k : Nat) (v : α) : List (Nat × α) → List (Nat × α)
  | [] => [(k, v)]
  | (k2, v2) :: rest =>
    if k2 = k then (k, v) :: rest else (k2, v2) :: alistInsert k v rest

/-- The entity table, from src/entity_storage.rs.  A column slot is an
Option Nat: the payload of the stored component, or None for an empty slot. -/
structure EntityStorage where
  components : List (Nat × List (Option Nat))
  component_bitmasks : List (Nat × Nat)
  entity_component_bitmasks : List Nat
  next_free_entity_id : Nat
deriving DecidableEq, Repr

def EntityStorage.empty : EntityStorage := ⟨[], [], [], 0⟩

/-- EntityStorage::register_component: insert an empty column and assign the
bit 1 <<< len where len is the current number of bitmask entries. -/
def register_component (ty : Nat) (s : EntityStorage) : EntityStorage :=
  { s with
    components := alistInsert ty [] s.components
    component_bitmasks :=
      alistInsert ty (1 <<< s.component_bitmasks.length) s.component_bitmasks }

/-- Index of the first zero mask, mirroring iter().enumerate().find. -/
def findZeroIdx : List Nat → Option Nat
  | [] => none
  | m :: rest => if m = 0 then some 0 else (findZeroIdx rest).map (· + 1)

/-- EntityStorage::create_entity: reuse the first row whose bitmask is zero;
otherwise append one empty slot to every column and a zero mask. -/
def create_entity (s : EntityStorage) : EntityStorage :=
  match findZeroIdx s.entity_component_bitmasks with
  | some i => { s with next_free_entity_id := i }
  | none =>
    { s with
      components := s.components.map (fun p => (p.1, p.2 ++ [none]))
      entity_component_bitmasks := s.entity_component_bitmasks ++ [0]
      next_free_entity_id := s.entity_component_bitmasks.length }

/-- EntityStorage::with_component: store the value at the cursor row of its
column and OR the bit of its type into the cursor row mask. -/
def with_component (d : CompData) (s : EntityStorage) : OpResult EntityStorage :=
  let index := s.next_free_entity_id
  match alistFind d.ty s.components with
  | none => .err .ComponentNotRegistered
  | some col =>
    if index < col.length then
      match alistFind d.ty s.component_bitmasks with
      | none => .fatal
      | some m =>
        if index < s.entity_component_bitmasks.length then
          .ok { s with
            components := alistInsert d.ty (col.set index (some d.val)) s.components
            entity_component_bitmasks :=
              s.entity_component_bitmasks.set index
                (s.entity_component_bitmasks.getD index 0 ||| m) }
        else .fatal
    else .err .CreateComponentNeverCalled

/-- EntityStorage::get_bitmask. -/
def get_bitmask (ty : Nat) (s : EntityStorage) : Option Nat :=
  alistFind ty s.component_bitmasks

/-- EntityStorage::remove_entity_component: XOR the bit out of the row mask
when the row carries it; indexing the mask vector out of range is fatal. -/
def remove_entity_component (ty : Nat) (i : Nat) (s : EntityStorage) :
    OpResult EntityStorage :=
  match alistFind ty s.component_bitmasks with
  | none => .err .ComponentNotRegistered
  | some m =>
    if i < s.entity_component_bitmasks.length then
      if s.entity_component_bitmasks.getD i 0 &&& m = m then
        .ok { s with
          entity_component_bitmasks :=
            s.entity_component_bitmasks.set i
              (s.entity_component_bitmasks.getD i 0 ^^^ m) }
      else .ok s
    else .fatal

/-- EntityStorage::add_component_to_entity: OR the bit into the row mask and
overwrite the column slot; unguarded indexing is fatal. -/
def add_component_to_entity (i : Nat) (d : CompData) (s : EntityStorage) :
    OpResult EntityStorage :=
  match alistFind d.ty s.component_bitmasks with
  | none => .err .ComponentNotRegistered
  | some m =>
    if i < s.entity_component_bitmasks.length then
      match alistFind d.ty s.components with
      | none => .fatal
      | some col =>
        if i < col.length then
          .ok { s with
            components := alistInsert d.ty (col.set i (some d.val)) s.components
            entity_component_bitmasks :=
              s.entity_component_bitmasks.set i
                (s.entity_component_bitmasks.getD i 0 ||| m) }
        else .fatal
    else .fatal

/-- EntityStorage::remove_entity: zero the row mask, or report
EntityDoesNotExist for an out-of-range index. -/
def remove_entity (i : Nat) (s : EntityStorage) : OpResult EntityStorage :=
  if i < s.entity_component_bitmasks.length then
    .ok { s with entity_component_bitmasks := s.entity_component_bitmasks.set i 0 }
  else .err .EntityDoesNotExist

/-- QueryEntity::get_component, from src/entity_storage/query_entity.rs:
look up the column of the type, then inspect only the slot Option at the
row id (the row mask is not consulted). -/
def get_component (s : EntityStorage) (id : Nat) (ty : Nat) : OpResult Nat :=
  match alistFind ty s.components with
  | none => .err .ComponentNotRegistered
  | some col =>
    if id < col.length then
      match col.getD id none with
      | some v => .ok v
      | none => .err .ComponentDoesNotExist
    else .fatal

/-- The query state, from src/entity_storage/query.rs: the accumulated
filter mask and the filtered TypeId list in build order.  The borrowed
storage is passed explicitly to run. -/
structure Query where
  filter_mask : Nat
  component_type_ids : List Nat
deriving DecidableEq, Repr

def Query.new : Query := ⟨0, []⟩

/-- Query::with_component_filter: OR the bit of the type into the filter
mask and record the type, or fail when it is unregistered. -/
def with_component_filter (s : EntityStorage) (q : Query) (ty : Nat) :
    Except ECSError Query :=
  match get_bitmask ty s with
  | some b => .ok ⟨q.filter_mask ||| b, q.component_type_ids ++ [ty]⟩
  | none => .error .ComponentNotRegistered

/-- Build a query from Query::new by chaining with_component_filter calls;
none when some filter fails. -/
def buildQueryFrom (s : EntityStorage) (q : Query) : List Nat → Option Query
  | [] => some q
  | ty :: rest =>
    match with_component_filter s q ty with
    | .ok q2 => buildQueryFrom s q2 rest
    | .error _ => none

def buildQuery (s : EntityStorage) (tys : List Nat) : Option Query :=
  buildQueryFrom s Query.new tys

structure QueryResult where
  entity_ids : List Nat
  components : List (List Nat)
deriving DecidableEq, Repr

/-- The enumerate-filter_map scan of Query::run: indices (starting at base)
of the masks that contain the filter mask. -/
def matchedIdsAux (fm : Nat) : List Nat → Nat → List Nat
  | [], _ => []
  | m :: rest, base =>
    if m &&& fm = fm then base :: matchedIdsAux fm rest (base + 1)
    else matchedIdsAux fm rest (base + 1)

def matchedIds (s : EntityStorage) (fm : Nat) : List Nat :=
  matchedIdsAux fm s.entity_component_bitmasks 0

/-- The inner loop of Query::run for one column: indexing past the column
or unwrapping an empty slot is a panic, hence none. -/
def extractColumn (col : List (Option Nat)) : List Nat → Option (List Nat)
  | [] => some []
  | i :: rest =>
    if i < col.length then
      match col.getD i none with
      | none => none
      | some v =>
        match extractColumn col rest with
        | none => none
        | some vs => some (v :: vs)
    else none

/-- The outer loop of Query::run: one extracted list per filtered type, in
filter order; unwrapping a missing column is a panic, hence none. -/
def runColumns (s : EntityStorage) (ids : List Nat) : List Nat → Option (List (List Nat))
  | [] => some []
  | ty :: rest =>
    match alistFind ty s.components with
    | none => none
    | some col =>
      match extractColumn col ids with
      | none => none
      | some vs =>
        match runColumns s ids rest with
        | none => none
        | some cols => some (vs :: cols)

/-- Query::run: none models a panic inside the scan. -/
def Query.run (s : EntityStorage) (q : Query) : Option QueryResult :=
  match runColumns s (matchedIds s q.filter_mask) q.component_type_ids with
  | none => none
  | some cols => some ⟨matchedIds s q.filter_mask, cols⟩

/-- The slot content of the column of a type at a row, used to state what a
query or accessor must return. -/
def storedAt (s : EntityStorage) (ty i : Nat) : Option Nat :=
  match alistFind ty s.components with
  | none => none
  | some col => col.getD i none

/-- The resource store, from src/resource_storage.rs: a type-keyed map of
single values. -/
structure ResourceStorage where
  data : List (Nat × Nat)
deriving DecidableEq, Repr

def ResourceStorage.insert (ty v : Nat) (r : ResourceStorage) :
    Except ECSError ResourceStorage :=
  if (alistFind ty r.data).isSome then .error .ResourceAlreadyRegistered
  else .ok ⟨alistInsert ty v r.data⟩

def ResourceStorage.replace (ty v : Nat) (r : ResourceStorage) : ResourceStorage :=
  ⟨alistInsert ty v r.data⟩

def ResourceStorage.get (ty : Nat) (r : ResourceStorage) : Option Nat :=
  alistFind ty r.data

/-- The public mutating operations of the table, for reachability. -/
inductive Op where
  | register : Nat → Op
  | create : Op
  | withComp : CompData → Op
  | addComp : Nat → CompData → Op
  | removeComp : Nat → Nat → Op
  | removeEnt : Nat → Op
deriving DecidableEq, Repr

/-- One public call: a fallible call that returns an error leaves the table
unchanged; a panic has no successor state. -/
def applyOp (s : EntityStorage) : Op → Option EntityStorage
  | .register ty => some (register_component ty s)
  | .create => some (create_entity s)
  | .withComp d =>
    match with_component d s with
    | .ok s2 => some s2
    | .err _ => some s
    | .fatal => none
  | .addComp i d =>
    match add_component_to_entity i d s with
    | .ok s2 => some s2
    | .err _ => some s
    | .fatal => none
  | .removeComp ty i =>
    match remove_entity_component ty i s with
    | .ok s2 => some s2
    | .err _ => some s
    | .fatal => none
  | .removeEnt i =>
    match remove_entity i s with
    | .ok s2 => some s2
    | .err _ => some s
    | .fatal => none

def runOps (s : EntityStorage) : List Op → Option EntityStorage
  | [] => some s
  | op :: rest =>
    match applyOp s op with
    | none => none
    | some s2 => runOps s2 rest

/-- The TypeIds passed to the register calls of an operation list. -/
def regTys : List Op → List Nat
  | [] => []
  | .register ty :: rest => ty :: regTys rest
  | _ :: rest => regTys rest

/-- Every register call precedes the first create call. -/
def regsPrecedeCreate : List Op → Bool
  | [] => true
  | .create :: rest => decide (regTys rest = [])
  | _ :: rest => regsPrecedeCreate rest

/-! ### Association-list and list-index helper lemmas -/

theorem alistFind_mem {α : Type} {k : Nat} {v : α} :
    ∀ {l : List (Nat × α)}, alistFind k l = some v → (k, v) ∈ l := by
  intro l
  induction l with
  | nil => intro h; simp [alistFind] at h
  | cons p rest ih =>
    obtain ⟨k2, v2⟩ := p
    intro h
    simp only [alistFind] at h
    by_cases hk : k2 = k
    · subst hk
      simp at h
      subst h
      exact List.mem_cons_self _ _
    · simp only [if_neg hk] at h
      exact List.mem_cons_of_mem _ (ih h)

theorem alistFind_insert_self {α : Type} (k : Nat) (v : α) :
    ∀ (l : List (Nat × α)), alistFind k (alistInsert k v l) = some v := by
  intro l
  induction l with
  | nil => simp [alistInsert, alistFind]
  | cons p rest ih =>
    obtain ⟨k2, v2⟩ := p
    by_cases hk : k2 = k
    · simp [alistInsert, hk, alistFind]
    · simp [alistInsert, hk, alistFind, ih]

theorem alistFind_insert_ne {α : Type} {k k2 : Nat} (v : α) (hne : k2 ≠ k) :
    ∀ (l : List (Nat × α)), alistFind k2 (alistInsert k v l) = alistFind k2 l := by
  intro l
  induction l with
  | nil => simp [alistInsert, alistFind, Ne.symm hne]
  | cons p rest ih =>
    obtain ⟨k3, v3⟩ := p
    by_cases hk : k3 = k
    · subst hk
      simp [alistInsert, alistFind, Ne.symm hne]
    · by_cases hk2 : k3 = k2
      · simp [alistInsert, alistFind, hk, hk2, hne]
      · simp [alistInsert, alistFind, hk, hk2, ih]

theorem mem_alistInsert {α : Type} {k : Nat} {v : α} {p : Nat × α} :
    ∀ {l : List (Nat × α)}, p ∈ alistInsert k v l → p = (k, v) ∨ p ∈ l := by
  intro l
  induction l with
  | nil => intro h; simp [alistInsert] at h; exact Or.inl h
  | cons q rest ih =>
    obtain ⟨k2, v2⟩ := q
    intro h
    by_cases hk : k2 = k
    · simp only [alistInsert, if_pos hk] at h
      rcases List.mem_cons.mp h with h1 | h2
      · exact Or.inl h1
      · exact Or.inr (List.mem_cons_of_mem _ h2)
    · simp only [alistInsert, if_neg hk] at h
      rcases List.mem_cons.mp h with h1 | h2
      · exact Or.inr (h1 ▸ List.mem_cons_self _ _)
      · rcases ih h2 with h3 | h4
        · exact Or.inl h3
        · exact Or.inr (List.mem_cons_of_mem _ h4)

theorem alistInsert_of_find_none {α : Type} {k : Nat} (v : α) :
    ∀ {l : List (Nat × α)}, alistFind k l = none → alistInsert k v l = l ++ [(k, v)] := by
  intro l
  induction l with
  | nil => intro _; simp [alistInsert]
  | cons p rest ih =>
    obtain ⟨k2, v2⟩ := p
    intro h
    simp only [alistFind] at h
    by_cases hk : k2 = k
    · simp [if_pos hk] at h
    · simp only [if_neg hk] at h
      simp [alistInsert, hk, ih h]

theorem alistFind_append_left {α : Type} {k : Nat} {v : α} :
    ∀ {l1 : List (Nat × α)} (l2 : List (Nat × α)),
      alistFind k l1 = some v → alistFind k (l1 ++ l2) = some v := by
  intro l1
  induction l1 with
  | nil => intro l2 h; simp [alistFind] at h
  | cons p rest ih =>
    obtain ⟨k2, v2⟩ := p
    intro l2 h
    simp only [alistFind] at h ⊢
    by_cases hk : k2 = k
    · simpa [hk] using h
    · simp only [if_neg hk] at h ⊢
      exact ih l2 h

theorem alistFind_append_right {α : Type} {k : Nat} :
    ∀ {l1 : List (Nat × α)} (l2 : List (Nat × α)),
      alistFind k l1 = none → alistFind k (l1 ++ l2) = alistFind k l2 := by
  intro l1
  induction l1 with
  | nil => intro l2 _; simp
  | cons p rest ih =>
    obtain ⟨k2, v2⟩ := p
    intro l2 h
    simp only [alistFind] at h ⊢
    by_cases hk : k2 = k
    · simp [if_pos hk] at h
    · simp only [if_neg hk] at h ⊢
      exact ih l2 h

theorem alistFind_mapVal {α β : Type} (f : α → β) (k : Nat) :
    ∀ (l : List (Nat × α)),
      alistFind k (l.map (fun p => (p.1, f p.2))) = (alistFind k l).map f := by
  intro l
  induction l with
  | nil => simp [alistFind]
  | cons p rest ih =>
    obtain ⟨k2, v2⟩ := p
    by_cases hk : k2 = k
    · simp [alistFind, hk]
    · simp [alistFind, hk, ih]

theorem getD_append_lt {α : Type} (d : α) :
    ∀ (l l2 : List α) (i : Nat), i < l.length → (l ++ l2).getD i d = l.getD i d := by
  intro l
  induction l with
  | nil => intro l2 i h; simp at h
  | cons a rest ih =>
    intro l2 i h
    cases i with
    | zero => simp
    | succ j =>
      simp only [List.cons_append, List.getD_cons_succ]
      exact ih l2 j (Nat.lt_of_succ_lt_succ h)

theorem getD_append_len {α : Type} (d a : α) :
    ∀ (l : List α), (l ++ [a]).getD l.length d = a := by
  intro l
  induction l with
  | nil => simp
  | cons b rest ih => simp [ih]

theorem getD_set_self {α : Type} (d a : α) :
    ∀ (l : List α) (i : Nat), i < l.length → (l.set i a).getD i d = a := by
  intro l
  induction l with
  | nil => intro i h; simp at h
  | cons b rest ih =>
    intro i h
    cases i with
    | zero => simp
    | succ j =>
      simp only [List.set_cons_succ, List.getD_cons_succ]
      exact ih j (Nat.lt_of_succ_lt_succ h)

theorem getD_set_ne {α : Type} (d a : α) :
    ∀ (l : List α) (i j : Nat), i ≠ j → (l.set i a).getD j d = l.getD j d := by
  intro l
  induction l with
  | nil => intro i j _; simp
  | cons b rest ih =>
    intro i j hne
    cases i with
    | zero =>
      cases j with
      | zero => exact absurd rfl hne
      | succ j2 => simp
    | succ i2 =>
      cases j with
      | zero => simp
      | succ j2 =>
        simp only [List.set_cons_succ, List.getD_cons_succ]
        exact ih i2 j2 (fun h => hne (by rw [h]))

theorem mem_getD_of_mem {α : Type} (d : α) {a : α} :
    ∀ {l : List α}, a ∈ l → ∃ i, i < l.length ∧ l.getD i d = a := by
  intro l
  induction l with
  | nil => intro h; simp at h
  | cons b rest ih =>
    intro h
    rcases List.mem_cons.mp h with h1 | h2
    · exact ⟨0, Nat.succ_pos _, by simp [h1]⟩
    · obtain ⟨i, hi, hg⟩ := ih h2
      exact ⟨i + 1, Nat.succ_lt_succ hi, by simpa using hg⟩

/-! ### Bitmask helper lemmas -/

/-- Every bit of a is a bit of b: the containment the code tests with
row_mask AND filter_mask == filter_mask. -/
def maskLe (a b : Nat) : Prop := b &&& a = a

theorem maskLe_iff {a b : Nat} :
    maskLe a b ↔ ∀ j, a.testBit j = true → b.testBit j = true := by
  constructor
  · intro h j hj
    have h2 : (b &&& a).testBit j = a.testBit j := by rw [h]
    rw [Nat.testBit_land, hj, Bool.and_true] at h2
    exact h2
  · intro h
    apply Nat.eq_of_testBit_eq
    intro j
    rw [Nat.testBit_land]
    cases ha : a.testBit j with
    | false => simp [ha]
    | true => simp [ha, h j ha]

theorem maskLe_refl (a : Nat) : maskLe a a := by
  apply maskLe_iff.mpr
  intro j h
  exact h

theorem maskLe_trans {a b c : Nat} (h1 : maskLe a b) (h2 : maskLe b c) : maskLe a c := by
  apply maskLe_iff.mpr
  intro j h
  exact maskLe_iff.mp h2 j (maskLe_iff.mp h1 j h)

theorem maskLe_lor_right (a b : Nat) : maskLe b (a ||| b) := by
  apply maskLe_iff.mpr
  intro j h
  simp [Nat.testBit_lor, h]

theorem maskLe_lor_left (a b : Nat) : maskLe a (a ||| b) := by
  apply maskLe_iff.mpr
  intro j h
  simp [Nat.testBit_lor, h]

theorem land_two_pow_eq_iff (m j : Nat) :
    m &&& 2 ^ j = 2 ^ j ↔ m.testBit j = true := by
  constructor
  · intro h
    have h2 : (m &&& 2 ^ j).testBit j = (2 ^ j : Nat).testBit j := by rw [h]
    rw [Nat.testBit_land, Nat.testBit_two_pow_self, Bool.and_true] at h2
    exact h2
  · intro h
    apply Nat.eq_of_testBit_eq
    intro i
    rw [Nat.testBit_land]
    by_cases hij : j = i
    · subst hij
      simp [h]
    · simp [Nat.testBit_two_pow_of_ne hij]

theorem testBit_lor_two_pow (x k j : Nat) :
    (x ||| 2 ^ k).testBit j = (x.testBit j || decide (k = j)) := by
  rw [Nat.testBit_lor]
  by_cases hkj : k = j
  · subst hkj
    simp [Nat.testBit_two_pow_self]
  · simp [Nat.testBit_two_pow_of_ne hkj, hkj]

theorem testBit_xor_two_pow (x k j : Nat) :
    (x ^^^ 2 ^ k).testBit j = xor (x.testBit j) (decide (k = j)) := by
  rw [Nat.testBit_xor]
  by_cases hkj : k = j
  · subst hkj
    simp [Nat.testBit_two_pow_self]
  · simp [Nat.testBit_two_pow_of_ne hkj, hkj]

theorem two_pow_ne_zero (k : Nat) : 2 ^ k ≠ 0 :=
  pow_ne_zero k (by decide)

theorem zero_land_eq (m : Nat) : 0 &&& m = 0 := by
  apply Nat.eq_of_testBit_eq
  intro j
  simp [Nat.testBit_land, Nat.zero_testBit]

theorem zero_lor_eq (m : Nat) : 0 ||| m = m := by
  apply Nat.eq_of_testBit_eq
  intro j
  simp [Nat.testBit_lor, Nat.zero_testBit]

/-! ### Claim C8: resource store insert and replace -/

/-- Claim C8: insert fails with ResourceAlreadyRegistered exactly when a
value of the type is already stored, and then the stored value is
unchanged; a successful insert makes get return the inserted value;
replace always succeeds and afterwards get returns the new value. -/
theorem resource_insert_replace_spec :
    ∀ (r : ResourceStorage) (ty v : Nat),
      (ResourceStorage.insert ty v r = Except.error ECSError.ResourceAlreadyRegistered ↔
        ∃ w, ResourceStorage.get ty r = some w)
      ∧ (∀ w, ResourceStorage.get ty r = some w →
          ResourceStorage.insert ty v r = Except.error ECSError.ResourceAlreadyRegistered ∧
          ResourceStorage.get ty r = some w)
      ∧ (∀ r2, ResourceStorage.insert ty v r = Except.ok r2 →
          ResourceStorage.get ty r2 = some v)
      ∧ ResourceStorage.get ty (ResourceStorage.replace ty v r) = some v := by
  intro r ty v
  refine ⟨⟨?_, ?_⟩, ?_, ?_, ?_⟩
  · intro h
    by_cases hs : (alistFind ty r.data).isSome
    · exact Option.isSome_iff_exists.mp hs
    · simp only [ResourceStorage.insert, if_neg hs] at h
      cases h
  · rintro ⟨w, hw⟩
    have hs : (alistFind ty r.data).isSome := by
      simp only [ResourceStorage.get] at hw
      simp [hw]
    simp [ResourceStorage.insert, hs]
  · intro w hw
    have hs : (alistFind ty r.data).isSome := by
      simp only [ResourceStorage.get] at hw
      simp [hw]
    exact ⟨by simp [ResourceStorage.insert, hs], hw⟩
  · intro r2 h
    by_cases hs : (alistFind ty r.data).isSome
    · simp [ResourceStorage.insert, hs] at h
    · simp only [ResourceStorage.insert, if_neg hs] at h
      cases h
      simp only [ResourceStorage.get]
      exact alistFind_insert_self ty v r.data
  · simp only [ResourceStorage.get, ResourceStorage.replace]
    exact alistFind_insert_self ty v r.data

theorem resource_insert_replace_spec_witness :
    ResourceStorage.get 1 (ResourceStorage.replace 1 61 ⟨[(1, 60)]⟩) = some 61 ∧
    ResourceStorage.insert 1 61 ⟨[(1, 60)]⟩ =
      Except.error ECSError.ResourceAlreadyRegistered :=
  ⟨(resource_insert_replace_spec ⟨[(1, 60)]⟩ 1 61).2.2.2,
   ((resource_insert_replace_spec ⟨[(1, 60)]⟩ 1 61).2.1 60 rfl).1⟩

/-! ### Claim C10: out-of-range row indices are a panic, not an error -/

/-- Claim C10: with a registered type but a row index at or past the number
of allocated rows, remove_entity_component and add_component_to_entity hit
an unguarded index into the bitmask vector and abort instead of reporting
EntityDoesNotExist; only remove_entity reports EntityDoesNotExist there. -/
theorem unguarded_index_no_entity_error :
    ∀ (s : EntityStorage) (ty i : Nat) (d : CompData) (m : Nat),
      (alistFind ty s.component_bitmasks = some m →
        ¬ i < s.entity_component_bitmasks.length →
        remove_entity_component ty i s = OpResult.fatal)
      ∧ (alistFind d.ty s.component_bitmasks = some m →
        ¬ i < s.entity_component_bitmasks.length →
        add_component_to_entity i d s = OpResult.fatal)
      ∧ (¬ i < s.entity_component_bitmasks.length →
        remove_entity i s = OpResult.err ECSError.EntityDoesNotExist) := by
  intro s ty i d m
  refine ⟨?_, ?_, ?_⟩
  · intro hm hi
    simp [remove_entity_component, hm, hi]
  · intro hm hi
    simp [add_component_to_entity, hm, hi]
  · intro hi
    simp [remove_entity, hi]

theorem unguarded_index_no_entity_error_witness :
    remove_entity_component 0 0 ⟨[(0, [])], [(0, 1)], [], 0⟩ = OpResult.fatal ∧
    add_component_to_entity 0 ⟨0, 5⟩ ⟨[(0, [])], [(0, 1)], [], 0⟩ = OpResult.fatal ∧
    remove_entity 0 ⟨[(0, [])], [(0, 1)], [], 0⟩ =
      OpResult.err ECSError.EntityDoesNotExist :=
  ⟨(unguarded_index_no_entity_error ⟨[(0, [])], [(0, 1)], [], 0⟩ 0 0 ⟨0, 5⟩ 1).1
      rfl (by decide),
   (unguarded_index_no_entity_error ⟨[(0, [])], [(0, 1)], [], 0⟩ 0 0 ⟨0, 5⟩ 1).2.1
      rfl (by decide),
   (unguarded_index_no_entity_error ⟨[(0, [])], [(0, 1)], [], 0⟩ 0 0 ⟨0, 5⟩ 1).2.2
      (by decide)⟩

/-! ### Claim C3: the accessor consults only the slot, never the mask -/

/-- Claim C3 (counterexample): detach the only component of row 0, so the
mask bit for the type is clear, then get_component still returns the stale
stored value instead of failing with ComponentDoesNotExist. -/
theorem get_component_stale_counterexample :
    runOps EntityStorage.empty
      [Op.register 0, Op.create, Op.withComp ⟨0, 7⟩, Op.removeComp 0 0] =
      some ⟨[(0, [some 7])], [(0, 1)], [0], 0⟩ ∧
    alistFind 0 (⟨[(0, [some 7])], [(0, 1)], [0], 0⟩ :
      EntityStorage).component_bitmasks = some 1 ∧
    ((⟨[(0, [some 7])], [(0, 1)], [0], 0⟩ :
      EntityStorage).entity_component_bitmasks.getD 0 0 &&& 1 ≠ 1) ∧
    get_component ⟨[(0, [some 7])], [(0, 1)], [0], 0⟩ 0 0 = OpResult.ok 7 := by
  refine ⟨by decide, by decide, by decide, by decide⟩

/-- Claim C3 (amended): get_component fails with ComponentNotRegistered when
the type has no column, fails with ComponentDoesNotExist exactly when the
slot Option at the row is unset, and otherwise returns the stored slot
value; the row mask is never consulted, so a stale value left under a
cleared bit is returned rather than rejected. -/
theorem get_component_spec :
    ∀ (s : EntityStorage) (id ty : Nat),
      (alistFind ty s.components = none →
        get_component s id ty = OpResult.err ECSError.ComponentNotRegistered)
      ∧ (∀ col, alistFind ty s.components = some col → id < col.length →
          col.getD id none = none →
          get_component s id ty = OpResult.err ECSError.ComponentDoesNotExist)
      ∧ (∀ col v, alistFind ty s.components = some col → id < col.length →
          col.getD id none = some v →
          get_component s id ty = OpResult.ok v) := by
  intro s id ty
  refine ⟨?_, ?_, ?_⟩
  · intro h
    simp [get_component, h]
  · intro col hc hi hslot
    simp only [get_component, hc, if_pos hi, hslot]
  · intro col v hc hi hslot
    simp only [get_component, hc, if_pos hi, hslot]

theorem get_component_spec_witness :
    get_component ⟨[(0, [some 7])], [(0, 1)], [0], 0⟩ 0 0 = OpResult.ok 7 :=
  (get_component_spec ⟨[(0, [some 7])], [(0, 1)], [0], 0⟩ 0 0).2.2
    [some 7] 7 rfl (by decide) rfl

/-! ### Claim C7: detach clears the bit, is a no-op when clear, idempotent -/

/-- Claim C7: on an allocated row and a registered type (whose assigned mask
is a single bit 2 ^ j), remove_entity_component clears that bit when set,
succeeds as a no-op when the bit is already clear, fails with
ComponentNotRegistered for an unknown type, is idempotent, and leaves every
other row mask and all column contents unchanged. -/
theorem remove_component_spec :
    ∀ (s : EntityStorage) (ty i j : Nat),
      (alistFind ty s.component_bitmasks = none →
        remove_entity_component ty i s =
          OpResult.err ECSError.ComponentNotRegistered)
      ∧ (alistFind ty s.component_bitmasks = some (2 ^ j) →
         i < s.entity_component_bitmasks.length →
          ((s.entity_component_bitmasks.getD i 0).testBit j = true →
            ∃ s2, remove_entity_component ty i s = OpResult.ok s2 ∧
              s2.components = s.components ∧
              s2.component_bitmasks = s.component_bitmasks ∧
              s2.next_free_entity_id = s.next_free_entity_id ∧
              s2.entity_component_bitmasks.length =
                s.entity_component_bitmasks.length ∧
              (s2.entity_component_bitmasks.getD i 0).testBit j = false ∧
              (∀ j2, j2 ≠ j →
                (s2.entity_component_bitmasks.getD i 0).testBit j2 =
                  (s.entity_component_bitmasks.getD i 0).testBit j2) ∧
              (∀ i2, i2 ≠ i →
                s2.entity_component_bitmasks.getD i2 0 =
                  s.entity_component_bitmasks.getD i2 0))
          ∧ ((s.entity_component_bitmasks.getD i 0).testBit j = false →
              remove_entity_component ty i s = OpResult.ok s)
          ∧ (∀ s2, remove_entity_component ty i s = OpResult.ok s2 →
              remove_entity_component ty i s2 = OpResult.ok s2)) := by
  intro s ty i j
  constructor
  · intro h
    simp [remove_entity_component, h]
  · intro hm hi
    refine ⟨?_, ?_, ?_⟩
    · intro htb
      have hcond : s.entity_component_bitmasks.getD i 0 &&& 2 ^ j = 2 ^ j :=
        (land_two_pow_eq_iff _ j).mpr htb
      have hok : remove_entity_component ty i s = OpResult.ok
          { s with
            entity_component_bitmasks :=
              s.entity_component_bitmasks.set i
                (s.entity_component_bitmasks.getD i 0 ^^^ 2 ^ j) } := by
        simp only [remove_entity_component, hm, if_pos hi, if_pos hcond]
      refine ⟨_, hok, rfl, rfl, rfl, List.length_set _ _ _, ?_, ?_, ?_⟩
      · simp only [getD_set_self 0 _ _ i hi, testBit_xor_two_pow, htb]
        simp
      · intro j2 hj2
        simp only [getD_set_self 0 _ _ i hi, testBit_xor_two_pow]
        simp [Ne.symm hj2]
      · intro i2 hi2
        exact getD_set_ne 0 _ _ i i2 (fun h => hi2 h.symm)
    · intro htb
      have hcond : ¬ s.entity_component_bitmasks.getD i 0 &&& 2 ^ j = 2 ^ j := by
        intro h
        rw [(land_two_pow_eq_iff _ j).mp h] at htb
        cases htb
      simp only [remove_entity_component, hm, if_pos hi, if_neg hcond]
    · intro s2 hok
      by_cases hcond : s.entity_component_bitmasks.getD i 0 &&& 2 ^ j = 2 ^ j
      · simp only [remove_entity_component, hm, if_pos hi, if_pos hcond,
          OpResult.ok.injEq] at hok
        subst hok
        have hi2 : i < (s.entity_component_bitmasks.set i
            (s.entity_component_bitmasks.getD i 0 ^^^ 2 ^ j)).length := by
          rw [List.length_set]
          exact hi
        have htb2 : ((s.entity_component_bitmasks.set i
            (s.entity_component_bitmasks.getD i 0 ^^^ 2 ^ j)).getD i 0).testBit j
            = false := by
          rw [getD_set_self 0 _ _ i hi, testBit_xor_two_pow,
            (land_two_pow_eq_iff _ j).mp hcond]
          simp
        have hcond2 : ¬ ((s.entity_component_bitmasks.set i
            (s.entity_component_bitmasks.getD i 0 ^^^ 2 ^ j)).getD i 0 &&& 2 ^ j
            = 2 ^ j) := by
          intro h
          rw [(land_two_pow_eq_iff _ j).mp h] at htb2
          cases htb2
        simp only [remove_entity_component, hm, if_pos hi2, if_neg hcond2]
      · simp only [remove_entity_component, hm, if_pos hi, if_neg hcond,
          OpResult.ok.injEq] at hok
        subst hok
        simp only [remove_entity_component, hm, if_pos hi, if_neg hcond]

theorem remove_component_spec_witness :
    remove_entity_component 0 0 ⟨[(0, [some 7])], [(0, 1)], [1], 0⟩ =
      OpResult.ok ⟨[(0, [some 7])], [(0, 1)], [0], 0⟩ ∧
    remove_entity_component 0 0 ⟨[(0, [some 7])], [(0, 1)], [0], 0⟩ =
      OpResult.ok ⟨[(0, [some 7])], [(0, 1)], [0], 0⟩ := by
  have h := (remove_component_spec ⟨[(0, [some 7])], [(0, 1)], [1], 0⟩ 0 0 0).2
    rfl (by decide)
  obtain ⟨s2, hok, -, -, -, -, -, -, -⟩ := h.1 (by decide)
  have hs2 : s2 = ⟨[(0, [some 7])], [(0, 1)], [0], 0⟩ := by
    have : remove_entity_component 0 0 ⟨[(0, [some 7])], [(0, 1)], [1], 0⟩ =
        OpResult.ok (⟨[(0, [some 7])], [(0, 1)], [0], 0⟩ : EntityStorage) := by decide
    rw [this] at hok
    cases hok
    rfl
  subst hs2
  exact ⟨hok, h.2.2 _ hok⟩

/-! ### findZeroIdx and create_entity helper lemmas -/

theorem findZeroIdx_some_of :
    ∀ (l : List Nat) (i : Nat), i < l.length → l.getD i 0 = 0 →
      (∀ j, j < i → l.getD j 0 ≠ 0) → findZeroIdx l = some i := by
  intro l
  induction l with
  | nil => intro i h _ _; simp at h
  | cons m rest ih =>
    intro i hi hz hmin
    cases i with
    | zero =>
      simp only [List.getD_cons_zero] at hz
      simp [findZeroIdx, hz]
    | succ i2 =>
      have hm : m ≠ 0 := by simpa using hmin 0 (Nat.succ_pos i2)
      simp only [findZeroIdx, if_neg hm]
      have hrest : findZeroIdx rest = some i2 := by
        apply ih i2 (Nat.lt_of_succ_lt_succ hi)
        · simpa using hz
        · intro j hj
          simpa using hmin (j + 1) (Nat.succ_lt_succ hj)
      rw [hrest]
      rfl

theorem findZeroIdx_none_of :
    ∀ (l : List Nat), (∀ j, j < l.length → l.getD j 0 ≠ 0) →
      findZeroIdx l = none := by
  intro l
  induction l with
  | nil => intro _; rfl
  | cons m rest ih =>
    intro h
    have hm : m ≠ 0 := by simpa using h 0 (Nat.succ_pos _)
    simp only [findZeroIdx, if_neg hm]
    have hrest : findZeroIdx rest = none := by
      apply ih
      intro j hj
      simpa using h (j + 1) (Nat.succ_lt_succ hj)
    rw [hrest]
    rfl

theorem findZeroIdx_some_spec :
    ∀ (l : List Nat) (i : Nat), findZeroIdx l = some i →
      i < l.length ∧ l.getD i 0 = 0 := by
  intro l
  induction l with
  | nil => intro i h; simp [findZeroIdx] at h
  | cons m rest ih =>
    intro i h
    by_cases hm : m = 0
    · simp only [findZeroIdx, if_pos hm] at h
      cases h
      exact ⟨Nat.succ_pos _, by simpa using hm⟩
    · simp only [findZeroIdx, if_neg hm] at h
      obtain ⟨i2, h2, h3⟩ := Option.map_eq_some'.mp h
      have hih := ih i2 h2
      subst h3
      exact ⟨Nat.succ_lt_succ hih.1, by simpa using hih.2⟩

theorem create_entity_reuse (s : EntityStorage) (i : Nat)
    (hi : i < s.entity_component_bitmasks.length)
    (hz : s.entity_component_bitmasks.getD i 0 = 0)
    (hmin : ∀ j, j < i → s.entity_component_bitmasks.getD j 0 ≠ 0) :
    create_entity s = { s with next_free_entity_id := i } := by
  unfold create_entity
  rw [findZeroIdx_some_of _ i hi hz hmin]

theorem create_entity_append (s : EntityStorage)
    (h : ∀ j, j < s.entity_component_bitmasks.length →
      s.entity_component_bitmasks.getD j 0 ≠ 0) :
    create_entity s = { s with
      components := s.components.map (fun p => (p.1, p.2 ++ [none]))
      entity_component_bitmasks := s.entity_component_bitmasks ++ [0]
      next_free_entity_id := s.entity_component_bitmasks.length } := by
  unfold create_entity
  rw [findZeroIdx_none_of _ h]

theorem create_cursor_mask_zero (s : EntityStorage) :
    (create_entity s).entity_component_bitmasks.getD
      (create_entity s).next_free_entity_id 0 = 0 := by
  unfold create_entity
  rcases h : findZeroIdx s.entity_component_bitmasks with _ | i
  · exact getD_append_len 0 0 _
  · exact (findZeroIdx_some_spec _ i h).2

theorem create_bm_eq (s : EntityStorage) :
    (create_entity s).component_bitmasks = s.component_bitmasks := by
  unfold create_entity
  rcases findZeroIdx s.entity_component_bitmasks with _ | i <;> rfl

/-! ### with_component success shape -/

theorem with_component_ok {d : CompData} {s s2 : EntityStorage}
    (h : with_component d s = OpResult.ok s2) :
    ∃ col m, alistFind d.ty s.components = some col ∧
      alistFind d.ty s.component_bitmasks = some m ∧
      s.next_free_entity_id < col.length ∧
      s.next_free_entity_id < s.entity_component_bitmasks.length ∧
      s2 = { s with
        components := alistInsert d.ty
          (col.set s.next_free_entity_id (some d.val)) s.components
        entity_component_bitmasks :=
          s.entity_component_bitmasks.set s.next_free_entity_id
            (s.entity_component_bitmasks.getD s.next_free_entity_id 0 ||| m) } := by
  rcases hc : alistFind d.ty s.components with _ | col
  · simp only [with_component, hc] at h
    exact OpResult.noConfusion h
  · by_cases hlen : s.next_free_entity_id < col.length
    · rcases hm : alistFind d.ty s.component_bitmasks with _ | m
      · simp only [with_component, hc, if_pos hlen, hm] at h
        exact OpResult.noConfusion h
      · by_cases hlen2 : s.next_free_entity_id < s.entity_component_bitmasks.length
        · simp only [with_component, hc, if_pos hlen, hm, if_pos hlen2,
            OpResult.ok.injEq] at h
          exact ⟨col, m, rfl, rfl, hlen, hlen2, h.symm⟩
        · simp only [with_component, hc, if_pos hlen, hm, if_neg hlen2] at h
          exact OpResult.noConfusion h
    · simp only [with_component, hc, if_neg hlen] at h
      exact OpResult.noConfusion h

/-! ### Claim C5: with_component errors, success effect, A-then-B scenario -/

/-- Claim C5: with_component fails with ComponentNotRegistered when the type
of the value was never registered, fails with CreateComponentNeverCalled
when the cursor row is not an allocated slot of the column of that type, on
success stores the value at the cursor row of that column and ORs the bit
of the type into the cursor row mask, and after create_entity followed by
attaching components A then B the row mask equals mask(A) OR mask(B). -/
theorem with_component_spec :
    ∀ (s : EntityStorage) (d : CompData),
      (alistFind d.ty s.components = none →
        with_component d s = OpResult.err ECSError.ComponentNotRegistered)
      ∧ (∀ col, alistFind d.ty s.components = some col →
          ¬ s.next_free_entity_id < col.length →
          with_component d s = OpResult.err ECSError.CreateComponentNeverCalled)
      ∧ (∀ s2, with_component d s = OpResult.ok s2 →
          ∃ m, alistFind d.ty s.component_bitmasks = some m ∧
            storedAt s2 d.ty s.next_free_entity_id = some d.val ∧
            s2.entity_component_bitmasks.getD s.next_free_entity_id 0 =
              s.entity_component_bitmasks.getD s.next_free_entity_id 0 ||| m)
      ∧ (∀ (a b : CompData) (s1 s2 : EntityStorage) (ma mb : Nat),
          with_component a (create_entity s) = OpResult.ok s1 →
          with_component b s1 = OpResult.ok s2 →
          alistFind a.ty s.component_bitmasks = some ma →
          alistFind b.ty s.component_bitmasks = some mb →
          s2.entity_component_bitmasks.getD
            (create_entity s).next_free_entity_id 0 = ma ||| mb) := by
  intro s d
  refine ⟨?_, ?_, ?_, ?_⟩
  · intro h
    simp only [with_component, h]
  · intro col hc hlen
    simp only [with_component, hc, if_neg hlen]
  · intro s2 h
    obtain ⟨col, m, hc, hm, hlen, hlen2, hs2⟩ := with_component_ok h
    refine ⟨m, hm, ?_, ?_⟩
    · rw [hs2]
      simp only [storedAt, alistFind_insert_self]
      exact getD_set_self none _ col _ hlen
    · rw [hs2]
      exact getD_set_self 0 _ _ _ hlen2
  · intro a b s1 s2 ma mb h1 h2 hma hmb
    obtain ⟨col1, m1, hc1, hm1, hl1, hl1b, hs1⟩ := with_component_ok h1
    obtain ⟨col2, m2, hc2, hm2, hl2, hl2b, hs2⟩ := with_component_ok h2
    have hm1a : m1 = ma := by
      rw [create_bm_eq, hma] at hm1
      exact (Option.some_inj.mp hm1).symm
    have hbm1 : s1.component_bitmasks = s.component_bitmasks := by
      rw [hs1]
      exact create_bm_eq s
    have hm2b : m2 = mb := by
      rw [hbm1, hmb] at hm2
      exact (Option.some_inj.mp hm2).symm
    have hcur1 : s1.next_free_entity_id = (create_entity s).next_free_entity_id := by
      rw [hs1]
    have hmask1 : s1.entity_component_bitmasks =
        (create_entity s).entity_component_bitmasks.set
          (create_entity s).next_free_entity_id
          ((create_entity s).entity_component_bitmasks.getD
            (create_entity s).next_free_entity_id 0 ||| m1) := by
      rw [hs1]
    have hmask2 : s2.entity_component_bitmasks =
        s1.entity_component_bitmasks.set s1.next_free_entity_id
          (s1.entity_component_bitmasks.getD s1.next_free_entity_id 0 ||| m2) := by
      rw [hs2]
    rw [hmask2, hcur1]
    rw [hcur1] at hl2b
    rw [getD_set_self 0 _ _ _ hl2b]
    rw [hmask1]
    rw [getD_set_self 0 _ _ _ hl1b]
    rw [create_cursor_mask_zero s, zero_lor_eq, hm1a, hm2b]

theorem with_component_spec_witness :
    with_component ⟨0, 10⟩
        (create_entity ⟨[(0, []), (1, [])], [(0, 1), (1, 2)], [], 0⟩) =
      OpResult.ok ⟨[(0, [some 10]), (1, [none])], [(0, 1), (1, 2)], [1], 0⟩ ∧
    (⟨[(0, [some 10]), (1, [some 20])], [(0, 1), (1, 2)], [3], 0⟩ :
        EntityStorage).entity_component_bitmasks.getD
      (create_entity ⟨[(0, []), (1, [])], [(0, 1), (1, 2)], [],
        0⟩).next_free_entity_id 0 = 1 ||| 2 :=
  ⟨by decide,
   (with_component_spec ⟨[(0, []), (1, [])], [(0, 1), (1, 2)], [], 0⟩
       ⟨0, 10⟩).2.2.2 ⟨0, 10⟩ ⟨1, 20⟩
     ⟨[(0, [some 10]), (1, [none])], [(0, 1), (1, 2)], [1], 0⟩
     ⟨[(0, [some 10]), (1, [some 20])], [(0, 1), (1, 2)], [3], 0⟩
     1 2 (by decide) (by decide) rfl rfl⟩

/-! ### Claim C2: row allocation policy -/

/-- Claim C2 (counterexample): in a reachable three-row table, free row 0,
then free row 2; the create_entity that follows the deletion of row 2
selects row 0, not row 2, refuting that the next create_entity after
delete_row(r) reuses index r. -/
theorem create_reuse_counterexample :
    runOps EntityStorage.empty
      [Op.register 0, Op.create, Op.withComp ⟨0, 1⟩, Op.create,
       Op.withComp ⟨0, 2⟩, Op.create, Op.withComp ⟨0, 3⟩,
       Op.removeEnt 0, Op.removeEnt 2] =
      some ⟨[(0, [some 1, some 2, some 3])], [(0, 1)], [0, 1, 0], 2⟩ ∧
    (create_entity
        ⟨[(0, [some 1, some 2, some 3])], [(0, 1)], [0, 1, 0],
          2⟩).next_free_entity_id = 0 ∧
    (0 : Nat) ≠ 2 :=
  ⟨by decide, by decide, by decide⟩

/-- Claim C2 (amended): create_entity reuses the smallest row index whose
bitmask is zero when one exists, changing nothing but the cursor; only when
every row mask is non-zero does it append one empty slot to every column
and a zero mask, with the cursor at the new last index; hence after
delete_row(r), provided the bitmask of every other row is non-zero, the
next create_entity reuses index r before any new index is appended. -/
theorem create_entity_policy :
    (∀ (s : EntityStorage) (i : Nat),
      i < s.entity_component_bitmasks.length →
      s.entity_component_bitmasks.getD i 0 = 0 →
      (∀ j, j < i → s.entity_component_bitmasks.getD j 0 ≠ 0) →
      create_entity s = { s with next_free_entity_id := i })
    ∧ (∀ s : EntityStorage,
      (∀ j, j < s.entity_component_bitmasks.length →
        s.entity_component_bitmasks.getD j 0 ≠ 0) →
      create_entity s = { s with
        components := s.components.map (fun p => (p.1, p.2 ++ [none]))
        entity_component_bitmasks := s.entity_component_bitmasks ++ [0]
        next_free_entity_id := s.entity_component_bitmasks.length })
    ∧ (∀ (s s2 : EntityStorage) (r : Nat),
      remove_entity r s = OpResult.ok s2 →
      (∀ j, j < s.entity_component_bitmasks.length → j ≠ r →
        s.entity_component_bitmasks.getD j 0 ≠ 0) →
      create_entity s2 = { s2 with next_free_entity_id := r }) := by
  refine ⟨create_entity_reuse, create_entity_append, ?_⟩
  intro s s2 r hok hnz
  have hshape : r < s.entity_component_bitmasks.length ∧
      s2 = { s with entity_component_bitmasks :=
        s.entity_component_bitmasks.set r 0 } := by
    by_cases h : r < s.entity_component_bitmasks.length
    · simp only [remove_entity, if_pos h, OpResult.ok.injEq] at hok
      exact ⟨h, hok.symm⟩
    · simp only [remove_entity, if_neg h] at hok
      exact OpResult.noConfusion hok
  obtain ⟨hrlt, hs2⟩ := hshape
  apply create_entity_reuse
  · rw [hs2]
    show r < (s.entity_component_bitmasks.set r 0).length
    rw [List.length_set]
    exact hrlt
  · rw [hs2]
    exact getD_set_self 0 0 s.entity_component_bitmasks r hrlt
  · intro j hj
    rw [hs2]
    show (s.entity_component_bitmasks.set r 0).getD j 0 ≠ 0
    rw [getD_set_ne 0 0 s.entity_component_bitmasks r j (Ne.symm (Nat.ne_of_lt hj))]
    exact hnz j (Nat.lt_trans hj hrlt) (Nat.ne_of_lt hj)

theorem create_entity_policy_witness :
    remove_entity 1 ⟨[(0, [some 5, some 6])], [(0, 1)], [1, 1], 0⟩ =
      OpResult.ok ⟨[(0, [some 5, some 6])], [(0, 1)], [1, 0], 0⟩ ∧
    create_entity ⟨[(0, [some 5, some 6])], [(0, 1)], [1, 0], 0⟩ =
      ⟨[(0, [some 5, some 6])], [(0, 1)], [1, 0], 1⟩ :=
  ⟨by decide,
   create_entity_policy.2.2 ⟨[(0, [some 5, some 6])], [(0, 1)], [1, 1], 0⟩
     ⟨[(0, [some 5, some 6])], [(0, 1)], [1, 0], 0⟩ 1 (by decide)
     (fun j hj hne => by
       have hj2 : j < 2 := hj
       have hj0 : j = 0 := by omega
       subst hj0
       decide)⟩

/-! ### Claim C4: bit assignment across register sequences -/

/-- A sequence of register_component calls. -/
def registerAll (tys : List Nat) (s : EntityStorage) : EntityStorage :=
  match tys with
  | [] => s
  | ty :: rest => registerAll rest (register_component ty s)

theorem getD_take {α : Type} (d : α) :
    ∀ (l : List α) (n k : Nat), k < n → (l.take n).getD k d = l.getD k d := by
  intro l
  induction l with
  | nil => intro n k _; simp
  | cons a rest ih =>
    intro n k hk
    cases n with
    | zero => simp at hk
    | succ n2 =>
      cases k with
      | zero => simp
      | succ k2 =>
        simp only [List.take_succ_cons, List.getD_cons_succ]
        exact ih n2 k2 (Nat.lt_of_succ_lt_succ hk)

theorem registerAll_bitmasks :
    ∀ (tys : List Nat) (s : EntityStorage), tys.Nodup →
      (∀ t ∈ tys, alistFind t s.component_bitmasks = none) →
      (∀ (ty2 m : Nat), alistFind ty2 s.component_bitmasks = some m →
        alistFind ty2 (registerAll tys s).component_bitmasks = some m)
      ∧ (∀ k, k < tys.length →
        alistFind (tys.getD k 0) (registerAll tys s).component_bitmasks =
          some (1 <<< (s.component_bitmasks.length + k))) := by
  intro tys
  induction tys with
  | nil =>
    intro s _ _
    exact ⟨fun ty2 m h => h, fun k hk => absurd hk (Nat.not_lt_zero k)⟩
  | cons t rest ih =>
    intro s hnd hfresh
    have hft : alistFind t s.component_bitmasks = none :=
      hfresh t (List.mem_cons_self t rest)
    have hbm1 : (register_component t s).component_bitmasks =
        s.component_bitmasks ++ [(t, 1 <<< s.component_bitmasks.length)] := by
      simp only [register_component]
      exact alistInsert_of_find_none _ hft
    have htnotin : t ∉ rest := (List.nodup_cons.mp hnd).1
    have hndrest : rest.Nodup := (List.nodup_cons.mp hnd).2
    have hfresh1 : ∀ t2 ∈ rest,
        alistFind t2 (register_component t s).component_bitmasks = none := by
      intro t2 ht2
      rw [hbm1]
      rw [alistFind_append_right _ (hfresh t2 (List.mem_cons_of_mem t ht2))]
      have : t ≠ t2 := fun h => htnotin (h ▸ ht2)
      simp [alistFind, this]
    obtain ⟨hper, hass⟩ := ih (register_component t s) hndrest hfresh1
    constructor
    · intro ty2 m h
      apply hper
      rw [hbm1]
      exact alistFind_append_left _ h
    · intro k hk
      cases k with
      | zero =>
        have hself : alistFind t (register_component t s).component_bitmasks =
            some (1 <<< s.component_bitmasks.length) := by
          rw [hbm1, alistFind_append_right _ hft]
          simp [alistFind]
        have := hper t (1 <<< s.component_bitmasks.length) hself
        simpa using this
      | succ k2 =>
        have hk2 : k2 < rest.length := Nat.lt_of_succ_lt_succ hk
        have := hass k2 hk2
        have hlen1 : (register_component t s).component_bitmasks.length =
            s.component_bitmasks.length + 1 := by
          rw [hbm1]
          simp
        rw [hlen1] at this
        have harith : s.component_bitmasks.length + 1 + k2 =
            s.component_bitmasks.length + (k2 + 1) := by omega
        rw [harith] at this
        simpa using this

/-- Claim C4 (counterexample): registering the same type twice reassigns its
bit; after the sequence [t, t] the first (and only) distinct registered type
holds bit 2, not 1 <<< 0, so the first assignment does not persist. -/
theorem register_bit_reassigned_counterexample :
    alistFind 0 (registerAll [0, 0] EntityStorage.empty).component_bitmasks =
      some 2 ∧
    (2 : Nat) ≠ 1 <<< 0 :=
  ⟨by decide, by decide⟩

/-- Claim C4 (amended): for every register_component sequence of pairwise
distinct types on a fresh table, the k-th (0-indexed) registered type is
assigned bit 1 <<< k, and the assignment still holds after every later
prefix of the sequence. -/
theorem register_bits_canonical :
    ∀ (tys : List Nat), tys.Nodup →
      ∀ m k, k < m → m ≤ tys.length →
        alistFind (tys.getD k 0)
          (registerAll (tys.take m) EntityStorage.empty).component_bitmasks =
          some (1 <<< k) := by
  intro tys hnd m k hkm hm
  have hndt : (tys.take m).Nodup := List.Nodup.sublist (List.take_sublist m tys) hnd
  have hfresh : ∀ t ∈ tys.take m,
      alistFind t (EntityStorage.empty).component_bitmasks = none := by
    intro t _
    rfl
  have hk : k < (tys.take m).length := by
    rw [List.length_take]
    exact Nat.lt_min.mpr ⟨hkm, Nat.lt_of_lt_of_le hkm hm⟩
  have hmain :=
    (registerAll_bitmasks (tys.take m) EntityStorage.empty hndt hfresh).2 k hk
  rw [getD_take 0 tys m k hkm] at hmain
  have h0 : (EntityStorage.empty).component_bitmasks.length + k = k := by
    simp [EntityStorage.empty]
  rw [h0] at hmain
  exact hmain

theorem register_bits_canonical_witness :
    alistFind 1
      (registerAll ([0, 1, 2].take 2) EntityStorage.empty).component_bitmasks =
      some (1 <<< 1) :=
  register_bits_canonical [0, 1, 2] (by decide) 2 1 (by decide) (by decide)

/-! ### Success shapes of the remaining operations -/

theorem add_component_ok {i : Nat} {d : CompData} {s s2 : EntityStorage}
    (h : add_component_to_entity i d s = OpResult.ok s2) :
    ∃ m col, alistFind d.ty s.component_bitmasks = some m ∧
      alistFind d.ty s.components = some col ∧
      i < s.entity_component_bitmasks.length ∧ i < col.length ∧
      s2 = { s with
        components := alistInsert d.ty (col.set i (some d.val)) s.components
        entity_component_bitmasks := s.entity_component_bitmasks.set i
          (s.entity_component_bitmasks.getD i 0 ||| m) } := by
  rcases hm : alistFind d.ty s.component_bitmasks with _ | m
  · simp only [add_component_to_entity, hm] at h
    exact OpResult.noConfusion h
  · by_cases hi : i < s.entity_component_bitmasks.length
    · rcases hc : alistFind d.ty s.components with _ | col
      · simp only [add_component_to_entity, hm, if_pos hi, hc] at h
        exact OpResult.noConfusion h
      · by_cases hcl : i < col.length
        · simp only [add_component_to_entity, hm, if_pos hi, hc, if_pos hcl,
            OpResult.ok.injEq] at h
          exact ⟨m, col, rfl, rfl, hi, hcl, h.symm⟩
        · simp only [add_component_to_entity, hm, if_pos hi, hc, if_neg hcl] at h
          exact OpResult.noConfusion h
    · simp only [add_component_to_entity, hm, if_neg hi] at h
      exact OpResult.noConfusion h

theorem remove_component_ok {ty i : Nat} {s s2 : EntityStorage}
    (h : remove_entity_component ty i s = OpResult.ok s2) :
    ∃ m, alistFind ty s.component_bitmasks = some m ∧
      i < s.entity_component_bitmasks.length ∧
      (s2 = s ∨ (s2 = { s with
        entity_component_bitmasks := s.entity_component_bitmasks.set i
          (s.entity_component_bitmasks.getD i 0 ^^^ m) } ∧
        s.entity_component_bitmasks.getD i 0 &&& m = m)) := by
  rcases hm : alistFind ty s.component_bitmasks with _ | m
  · simp only [remove_entity_component, hm] at h
    exact OpResult.noConfusion h
  · by_cases hi : i < s.entity_component_bitmasks.length
    · by_cases hcond : s.entity_component_bitmasks.getD i 0 &&& m = m
      · simp only [remove_entity_component, hm, if_pos hi, if_pos hcond,
          OpResult.ok.injEq] at h
        exact ⟨m, rfl, hi, Or.inr ⟨h.symm, hcond⟩⟩
      · simp only [remove_entity_component, hm, if_pos hi, if_neg hcond,
          OpResult.ok.injEq] at h
        exact ⟨m, rfl, hi, Or.inl h.symm⟩
    · simp only [remove_entity_component, hm, if_neg hi] at h
      exact OpResult.noConfusion h

theorem remove_entity_ok {i : Nat} {s s2 : EntityStorage}
    (h : remove_entity i s = OpResult.ok s2) :
    i < s.entity_component_bitmasks.length ∧
    s2 = { s with
      entity_component_bitmasks := s.entity_component_bitmasks.set i 0 } := by
  by_cases hi : i < s.entity_component_bitmasks.length
  · simp only [remove_entity, if_pos hi, OpResult.ok.injEq] at h
    exact ⟨hi, h.symm⟩
  · simp only [remove_entity, if_neg hi] at h
    exact OpResult.noConfusion h

/-! ### The equal-column-length invariant -/

/-- Every column of the table has the length of the bitmask vector. -/
def LenEq (s : EntityStorage) : Prop :=
  ∀ p ∈ s.components, p.2.length = s.entity_component_bitmasks.length

theorem lenEq_create {s : EntityStorage} (h : LenEq s) : LenEq (create_entity s) := by
  unfold create_entity
  rcases findZeroIdx s.entity_component_bitmasks with _ | i
  · intro p hp
    obtain ⟨q, hq, hpq⟩ := List.mem_map.mp hp
    subst hpq
    show (q.2 ++ [none]).length = (s.entity_component_bitmasks ++ [0]).length
    simp [h q hq]
  · intro p hp
    exact h p hp

theorem lenEq_withComp {d : CompData} {s s2 : EntityStorage}
    (h : LenEq s) (hok : with_component d s = OpResult.ok s2) : LenEq s2 := by
  obtain ⟨col, m, hc, hm, hlen, hlen2, hs2⟩ := with_component_ok hok
  subst hs2
  intro p hp
  rcases mem_alistInsert hp with h1 | h2
  · subst h1
    show (col.set s.next_free_entity_id (some d.val)).length =
      (s.entity_component_bitmasks.set _ _).length
    rw [List.length_set, List.length_set]
    exact h (d.ty, col) (alistFind_mem hc)
  · show p.2.length = (s.entity_component_bitmasks.set _ _).length
    rw [List.length_set]
    exact h p h2

theorem lenEq_addComp {i : Nat} {d : CompData} {s s2 : EntityStorage}
    (h : LenEq s) (hok : add_component_to_entity i d s = OpResult.ok s2) :
    LenEq s2 := by
  obtain ⟨m, col, hm, hc, hi, hcl, hs2⟩ := add_component_ok hok
  subst hs2
  intro p hp
  rcases mem_alistInsert hp with h1 | h2
  · subst h1
    show (col.set i (some d.val)).length =
      (s.entity_component_bitmasks.set _ _).length
    rw [List.length_set, List.length_set]
    exact h (d.ty, col) (alistFind_mem hc)
  · show p.2.length = (s.entity_component_bitmasks.set _ _).length
    rw [List.length_set]
    exact h p h2

theorem lenEq_removeComp {ty i : Nat} {s s2 : EntityStorage}
    (h : LenEq s) (hok : remove_entity_component ty i s = OpResult.ok s2) :
    LenEq s2 := by
  obtain ⟨m, hm, hi, hcase⟩ := remove_component_ok hok
  rcases hcase with h1 | ⟨h1, _⟩
  · subst h1; exact h
  · subst h1
    intro p hp
    show p.2.length = (s.entity_component_bitmasks.set _ _).length
    rw [List.length_set]
    exact h p hp

theorem lenEq_removeEnt {i : Nat} {s s2 : EntityStorage}
    (h : LenEq s) (hok : remove_entity i s = OpResult.ok s2) : LenEq s2 := by
  obtain ⟨hi, hs2⟩ := remove_entity_ok hok
  subst hs2
  intro p hp
  show p.2.length = (s.entity_component_bitmasks.set _ _).length
  rw [List.length_set]
  exact h p hp

theorem lenEq_register_nil {ty : Nat} {s : EntityStorage}
    (hnil : s.entity_component_bitmasks = []) (h : LenEq s) :
    LenEq (register_component ty s) := by
  intro p hp
  rcases mem_alistInsert hp with h1 | h2
  · subst h1
    show ([] : List (Option Nat)).length = s.entity_component_bitmasks.length
    rw [hnil]
    rfl
  · exact h p h2

/-! ### Behaviour of the operations on a table with no rows -/

theorem withComp_nil {d : CompData} {s : EntityStorage}
    (hnil : s.entity_component_bitmasks = []) :
    ∀ s2, applyOp s (Op.withComp d) = some s2 → s2 = s := by
  intro s2 happ
  simp only [applyOp] at happ
  rcases hw : with_component d s with s3 | e | _
  · exfalso
    obtain ⟨col, m, hc, hm, hlen, hlen2, _⟩ := with_component_ok hw
    rw [hnil] at hlen2
    simp at hlen2
  · rw [hw] at happ
    cases happ
    rfl
  · rw [hw] at happ
    exact Option.noConfusion happ

theorem addComp_nil {i : Nat} {d : CompData} {s : EntityStorage}
    (hnil : s.entity_component_bitmasks = []) :
    ∀ s2, applyOp s (Op.addComp i d) = some s2 → s2 = s := by
  intro s2 happ
  simp only [applyOp] at happ
  rcases hw : add_component_to_entity i d s with s3 | e | _
  · exfalso
    obtain ⟨m, col, hm, hc, hi, _, _⟩ := add_component_ok hw
    rw [hnil] at hi
    simp at hi
  · rw [hw] at happ
    cases happ
    rfl
  · rw [hw] at happ
    exact Option.noConfusion happ

theorem removeComp_nil {ty i : Nat} {s : EntityStorage}
    (hnil : s.entity_component_bitmasks = []) :
    ∀ s2, applyOp s (Op.removeComp ty i) = some s2 → s2 = s := by
  intro s2 happ
  simp only [applyOp] at happ
  rcases hw : remove_entity_component ty i s with s3 | e | _
  · exfalso
    obtain ⟨m, hm, hi, _⟩ := remove_component_ok hw
    rw [hnil] at hi
    simp at hi
  · rw [hw] at happ
    cases happ
    rfl
  · rw [hw] at happ
    exact Option.noConfusion happ

theorem removeEnt_nil {i : Nat} {s : EntityStorage}
    (hnil : s.entity_component_bitmasks = []) :
    ∀ s2, applyOp s (Op.removeEnt i) = some s2 → s2 = s := by
  intro s2 happ
  simp only [applyOp] at happ
  rcases hw : remove_entity i s with s3 | e | _
  · exfalso
    obtain ⟨hi, _⟩ := remove_entity_ok hw
    rw [hnil] at hi
    simp at hi
  · rw [hw] at happ
    cases happ
    rfl
  · rw [hw] at happ
    exact Option.noConfusion happ

theorem regsPrecedeCreate_of_no_regs :
    ∀ ops : List Op, regTys ops = [] → regsPrecedeCreate ops = true := by
  intro ops
  induction ops with
  | nil => intro _; rfl
  | cons op rest ih =>
    intro h
    cases op with
    | register ty => simp [regTys] at h
    | create =>
      have hrest : regTys rest = [] := h
      simp [regsPrecedeCreate, hrest]
    | withComp d => exact ih h
    | addComp i d => exact ih h
    | removeComp ty i => exact ih h
    | removeEnt i => exact ih h

/-! ### Claim C6: the equal-length invariant under disciplined sequences -/

theorem runOps_lenEq :
    ∀ (ops : List Op) (s s2 : EntityStorage), LenEq s →
      regsPrecedeCreate ops = true →
      (regTys ops ≠ [] → s.entity_component_bitmasks = []) →
      runOps s ops = some s2 → LenEq s2 := by
  intro ops
  induction ops with
  | nil =>
    intro s s2 h _ _ hrun
    cases hrun
    exact h
  | cons op rest ih =>
    intro s s2 h hpre hnil hrun
    simp only [runOps] at hrun
    rcases happ : applyOp s op with _ | s1
    · rw [happ] at hrun
      exact Option.noConfusion hrun
    · rw [happ] at hrun
      cases op with
      | register ty =>
        have hmask : s.entity_component_bitmasks = [] := by
          apply hnil
          intro hz
          exact List.noConfusion hz
        have hs1 : s1 = register_component ty s := by
          simp only [applyOp] at happ
          exact (Option.some_inj.mp happ).symm
        subst hs1
        exact ih _ s2 (lenEq_register_nil hmask h) hpre (fun _ => hmask) hrun
      | create =>
        have hrt : regTys rest = [] := by
          simp only [regsPrecedeCreate] at hpre
          exact of_decide_eq_true hpre
        have hs1 : s1 = create_entity s := by
          simp only [applyOp] at happ
          exact (Option.some_inj.mp happ).symm
        subst hs1
        exact ih _ s2 (lenEq_create h) (regsPrecedeCreate_of_no_regs rest hrt)
          (fun hne => absurd hrt hne) hrun
      | withComp d =>
        by_cases hrt : regTys rest = []
        · have hlen1 : LenEq s1 := by
            simp only [applyOp] at happ
            rcases hw : with_component d s with s3 | e | _
            · rw [hw] at happ
              cases happ
              exact lenEq_withComp h hw
            · rw [hw] at happ
              cases happ
              exact h
            · rw [hw] at happ
              exact Option.noConfusion happ
          exact ih s1 s2 hlen1 hpre (fun hne => absurd hrt hne) hrun
        · have hmask : s.entity_component_bitmasks = [] := hnil hrt
          have hs1 : s1 = s := withComp_nil hmask s1 happ
          subst hs1
          exact ih _ s2 h hpre (fun _ => hmask) hrun
      | addComp i d =>
        by_cases hrt : regTys rest = []
        · have hlen1 : LenEq s1 := by
            simp only [applyOp] at happ
            rcases hw : add_component_to_entity i d s with s3 | e | _
            · rw [hw] at happ
              cases happ
              exact lenEq_addComp h hw
            · rw [hw] at happ
              cases happ
              exact h
            · rw [hw] at happ
              exact Option.noConfusion happ
          exact ih s1 s2 hlen1 hpre (fun hne => absurd hrt hne) hrun
        · have hmask : s.entity_component_bitmasks = [] := hnil hrt
          have hs1 : s1 = s := addComp_nil hmask s1 happ
          subst hs1
          exact ih _ s2 h hpre (fun _ => hmask) hrun
      | removeComp ty i =>
        by_cases hrt : regTys rest = []
        · have hlen1 : LenEq s1 := by
            simp only [applyOp] at happ
            rcases hw : remove_entity_component ty i s with s3 | e | _
            · rw [hw] at happ
              cases happ
              exact lenEq_removeComp h hw
            · rw [hw] at happ
              cases happ
              exact h
            · rw [hw] at happ
              exact Option.noConfusion happ
          exact ih s1 s2 hlen1 hpre (fun hne => absurd hrt hne) hrun
        · have hmask : s.entity_component_bitmasks = [] := hnil hrt
          have hs1 : s1 = s := removeComp_nil hmask s1 happ
          subst hs1
          exact ih _ s2 h hpre (fun _ => hmask) hrun
      | removeEnt i =>
        by_cases hrt : regTys rest = []
        · have hlen1 : LenEq s1 := by
            simp only [applyOp] at happ
            rcases hw : remove_entity i s with s3 | e | _
            · rw [hw] at happ
              cases happ
              exact lenEq_removeEnt h hw
            · rw [hw] at happ
              cases happ
              exact h
            · rw [hw] at happ
              exact Option.noConfusion happ
          exact ih s1 s2 hlen1 hpre (fun hne => absurd hrt hne) hrun
        · have hmask : s.entity_component_bitmasks = [] := hnil hrt
          have hs1 : s1 = s := removeEnt_nil hmask s1 happ
          subst hs1
          exact ih _ s2 h hpre (fun _ => hmask) hrun

/-- Claim C6 (counterexample): registering a component after a row exists
leaves its fresh empty column shorter than the bitmask vector, so the
invariant fails for sequences where registration follows create_entity. -/
theorem late_register_breaks_lengths :
    runOps EntityStorage.empty [Op.create, Op.register 0] =
      some ⟨[(0, [])], [(0, 1)], [0], 0⟩ ∧
    (0, ([] : List (Option Nat))) ∈
      (⟨[(0, [])], [(0, 1)], [0], 0⟩ : EntityStorage).components ∧
    ([] : List (Option Nat)).length ≠
      (⟨[(0, [])], [(0, 1)], [0], 0⟩ :
        EntityStorage).entity_component_bitmasks.length :=
  ⟨by decide, by decide, by decide⟩

/-- Claim C6 (amended): in every table state reachable by a sequence of the
public operations in which every register_component call precedes the first
create_entity, all component columns have equal length, equal to the length
of the entity bitmask vector. -/
theorem columns_equal_length_inv :
    ∀ (ops : List Op) (s2 : EntityStorage),
      regsPrecedeCreate ops = true →
      runOps EntityStorage.empty ops = some s2 →
      ∀ p ∈ s2.components,
        p.2.length = s2.entity_component_bitmasks.length := by
  intro ops s2 hpre hrun
  exact runOps_lenEq ops EntityStorage.empty s2
    (fun p hp => absurd hp (List.not_mem_nil p)) hpre (fun _ => rfl) hrun

theorem columns_equal_length_inv_witness :
    ([some 9] : List (Option Nat)).length =
      (⟨[(0, [some 9])], [(0, 1)], [1], 0⟩ :
        EntityStorage).entity_component_bitmasks.length :=
  columns_equal_length_inv [Op.register 0, Op.create, Op.withComp ⟨0, 9⟩]
    ⟨[(0, [some 9])], [(0, 1)], [1], 0⟩ (by decide) (by decide)
    (0, [some 9]) (by decide)

/-! ### Query scan lemmas -/

theorem mem_matchedIdsAux :
    ∀ (l : List Nat) (fm base j : Nat),
      j ∈ matchedIdsAux fm l base ↔
        ∃ d, d < l.length ∧ j = base + d ∧ l.getD d 0 &&& fm = fm := by
  intro l fm
  induction l with
  | nil =>
    intro base j
    simp [matchedIdsAux]
  | cons m rest ih =>
    intro base j
    constructor
    · intro hj
      by_cases hm : m &&& fm = fm
      · simp only [matchedIdsAux, if_pos hm] at hj
        rcases List.mem_cons.mp hj with h1 | h2
        · exact ⟨0, Nat.succ_pos _, by simpa using h1, by simpa using hm⟩
        · obtain ⟨d, hd, hjd, hland⟩ := (ih (base + 1) j).mp h2
          exact ⟨d + 1, Nat.succ_lt_succ hd, by omega, by simpa using hland⟩
      · simp only [matchedIdsAux, if_neg hm] at hj
        obtain ⟨d, hd, hjd, hland⟩ := (ih (base + 1) j).mp hj
        exact ⟨d + 1, Nat.succ_lt_succ hd, by omega, by simpa using hland⟩
    · rintro ⟨d, hd, hjd, hland⟩
      cases d with
      | zero =>
        have hm : m &&& fm = fm := by simpa using hland
        have hj : j = base := by omega
        subst hj
        simp only [matchedIdsAux, if_pos hm]
        exact List.mem_cons_self _ _
      | succ d2 =>
        have hmem : j ∈ matchedIdsAux fm rest (base + 1) := by
          apply (ih (base + 1) j).mpr
          exact ⟨d2, Nat.lt_of_succ_lt_succ hd, by omega, by simpa using hland⟩
        by_cases hm : m &&& fm = fm
        · simp only [matchedIdsAux, if_pos hm]
          exact List.mem_cons_of_mem _ hmem
        · simp only [matchedIdsAux, if_neg hm]
          exact hmem

theorem mem_matchedIds {s : EntityStorage} {fm j : Nat} :
    j ∈ matchedIds s fm ↔
      (j < s.entity_component_bitmasks.length ∧
        s.entity_component_bitmasks.getD j 0 &&& fm = fm) := by
  unfold matchedIds
  rw [mem_matchedIdsAux]
  constructor
  · rintro ⟨d, hd, hjd, hland⟩
    have : j = d := by omega
    subst this
    exact ⟨hd, hland⟩
  · rintro ⟨hj, hland⟩
    exact ⟨j, hj, by omega, hland⟩

theorem matchedIdsAux_ge :
    ∀ (l : List Nat) (fm base j : Nat), j ∈ matchedIdsAux fm l base → base ≤ j := by
  intro l fm base j hj
  obtain ⟨d, _, hjd, _⟩ := (mem_matchedIdsAux l fm base j).mp hj
  omega

theorem matchedIdsAux_pairwise :
    ∀ (l : List Nat) (fm base : Nat),
      List.Pairwise (· < ·) (matchedIdsAux fm l base) := by
  intro l fm
  induction l with
  | nil => intro base; exact List.Pairwise.nil
  | cons m rest ih =>
    intro base
    by_cases hm : m &&& fm = fm
    · simp only [matchedIdsAux, if_pos hm]
      refine List.Pairwise.cons ?_ (ih (base + 1))
      intro j hj
      have := matchedIdsAux_ge rest fm (base + 1) j hj
      omega
    · simp only [matchedIdsAux, if_neg hm]
      exact ih (base + 1)

theorem extractColumn_spec :
    ∀ (ids : List Nat) (col : List (Option Nat)) (vs : List Nat),
      extractColumn col ids = some vs →
      vs.length = ids.length ∧
      ∀ t, t < ids.length →
        col.getD (ids.getD t 0) none = some (vs.getD t 0) := by
  intro ids
  induction ids with
  | nil =>
    intro col vs h
    simp only [extractColumn] at h
    cases h
    exact ⟨rfl, fun t ht => absurd ht (Nat.not_lt_zero t)⟩
  | cons i rest ih =>
    intro col vs h
    by_cases hi : i < col.length
    · simp only [extractColumn, if_pos hi] at h
      rcases hslot : col.getD i none with _ | v
      · rw [hslot] at h
        exact Option.noConfusion h
      · rw [hslot] at h
        rcases hrest : extractColumn col rest with _ | vs2
        · rw [hrest] at h
          exact Option.noConfusion h
        · rw [hrest] at h
          cases h
          obtain ⟨hlen, hidx⟩ := ih col vs2 hrest
          refine ⟨by simp [hlen], ?_⟩
          intro t ht
          cases t with
          | zero => simpa using hslot
          | succ t2 =>
            simp only [List.getD_cons_succ]
            exact hidx t2 (Nat.lt_of_succ_lt_succ ht)
    · simp only [extractColumn, if_neg hi] at h
      exact Option.noConfusion h

theorem extractColumn_some :
    ∀ (ids : List Nat) (col : List (Option Nat)),
      (∀ i ∈ ids, i < col.length ∧ ∃ v, col.getD i none = some v) →
      ∃ vs, extractColumn col ids = some vs := by
  intro ids
  induction ids with
  | nil => intro col _; exact ⟨[], rfl⟩
  | cons i rest ih =>
    intro col h
    obtain ⟨hi, v, hv⟩ := h i (List.mem_cons_self i rest)
    obtain ⟨vs2, hvs2⟩ := ih col (fun i2 hi2 => h i2 (List.mem_cons_of_mem i hi2))
    refine ⟨v :: vs2, ?_⟩
    simp only [extractColumn, if_pos hi, hv, hvs2]

theorem runColumns_spec :
    ∀ (tys : List Nat) (s : EntityStorage) (ids : List Nat)
      (cols : List (List Nat)),
      runColumns s ids tys = some cols →
      cols.length = tys.length ∧
      ∀ k, k < tys.length →
        ∃ col, alistFind (tys.getD k 0) s.components = some col ∧
          extractColumn col ids = some (cols.getD k []) := by
  intro tys
  induction tys with
  | nil =>
    intro s ids cols h
    simp only [runColumns] at h
    cases h
    exact ⟨rfl, fun k hk => absurd hk (Nat.not_lt_zero k)⟩
  | cons ty rest ih =>
    intro s ids cols h
    rcases hc : alistFind ty s.components with _ | col
    · simp only [runColumns, hc] at h
      exact Option.noConfusion h
    · simp only [runColumns, hc] at h
      rcases hvs : extractColumn col ids with _ | vs
      · rw [hvs] at h
        exact Option.noConfusion h
      · rw [hvs] at h
        rcases hrest : runColumns s ids rest with _ | cols2
        · rw [hrest] at h
          exact Option.noConfusion h
        · rw [hrest] at h
          cases h
          obtain ⟨hlen, hcols⟩ := ih s ids cols2 hrest
          refine ⟨by simp [hlen], ?_⟩
          intro k hk
          cases k with
          | zero => exact ⟨col, by simpa using hc, by simpa using hvs⟩
          | succ k2 =>
            simp only [List.getD_cons_succ]
            exact hcols k2 (Nat.lt_of_succ_lt_succ hk)

theorem runColumns_some :
    ∀ (tys : List Nat) (s : EntityStorage) (ids : List Nat),
      (∀ ty ∈ tys, ∃ col, alistFind ty s.components = some col ∧
        ∀ i ∈ ids, i < col.length ∧ ∃ v, col.getD i none = some v) →
      ∃ cols, runColumns s ids tys = some cols := by
  intro tys
  induction tys with
  | nil => intro s ids _; exact ⟨[], rfl⟩
  | cons ty rest ih =>
    intro s ids h
    obtain ⟨col, hc, hcol⟩ := h ty (List.mem_cons_self ty rest)
    obtain ⟨vs, hvs⟩ := extractColumn_some ids col hcol
    obtain ⟨cols2, hcols2⟩ := ih s ids (fun t ht => h t (List.mem_cons_of_mem ty ht))
    refine ⟨vs :: cols2, ?_⟩
    simp only [runColumns, hc, hvs, hcols2]

theorem buildQueryFrom_filters :
    ∀ (tys : List Nat) (s : EntityStorage) (q0 q : Query),
      buildQueryFrom s q0 tys = some q →
      q.component_type_ids = q0.component_type_ids ++ tys ∧
      maskLe q0.filter_mask q.filter_mask ∧
      ∀ ty ∈ tys, ∃ m, alistFind ty s.component_bitmasks = some m ∧
        maskLe m q.filter_mask := by
  intro tys
  induction tys with
  | nil =>
    intro s q0 q h
    simp only [buildQueryFrom] at h
    cases h
    exact ⟨by simp, maskLe_refl _, fun ty ht => absurd ht (List.not_mem_nil ty)⟩
  | cons ty rest ih =>
    intro s q0 q h
    rcases hb : get_bitmask ty s with _ | b
    · simp only [buildQueryFrom, with_component_filter, hb] at h
      exact Option.noConfusion h
    · simp only [buildQueryFrom, with_component_filter, hb] at h
      obtain ⟨htys, hle, hall⟩ :=
        ih s ⟨q0.filter_mask ||| b, q0.component_type_ids ++ [ty]⟩ q h
      refine ⟨by simpa using htys, ?_, ?_⟩
      · exact maskLe_trans (maskLe_lor_left _ _) hle
      · intro ty2 ht2
        rcases List.mem_cons.mp ht2 with h1 | h2
        · subst h1
          exact ⟨b, hb, maskLe_trans (maskLe_lor_right _ _) hle⟩
        · exact hall ty2 h2

/-! ### Claim C1: what a non-panicking run returns -/

/-- The exact-result property of Query::run: the returned ids are precisely
the rows whose mask contains the filter mask, in strictly ascending order,
and the returned columns are index-aligned with the ids, one list per
filtered type in filter order, holding the stored slot values. -/
def QueryRunSpec (s : EntityStorage) (q : Query) (r : QueryResult) : Prop :=
  (∀ j, j ∈ r.entity_ids ↔
    (j < s.entity_component_bitmasks.length ∧
      s.entity_component_bitmasks.getD j 0 &&& q.filter_mask = q.filter_mask))
  ∧ List.Pairwise (· < ·) r.entity_ids
  ∧ r.components.length = q.component_type_ids.length
  ∧ (∀ k, k < r.components.length →
      (r.components.getD k []).length = r.entity_ids.length)
  ∧ (∀ k t, k < r.components.length → t < r.entity_ids.length →
      storedAt s (q.component_type_ids.getD k 0) (r.entity_ids.getD t 0) =
        some ((r.components.getD k []).getD t 0))

/-- Claim C1 (counterexample): a reachable table and a query whose single
filter was added successfully, on which run does not return a result at all
(the slot unwrap for a matched row panics), so run does not return the
matched rows with aligned columns. -/
theorem query_run_counterexample :
    runOps EntityStorage.empty
      [Op.register 0, Op.register 0, Op.register 1, Op.create,
       Op.withComp ⟨0, 5⟩] =
      some ⟨[(0, [some 5]), (1, [none])], [(0, 2), (1, 2)], [2], 0⟩ ∧
    buildQuery ⟨[(0, [some 5]), (1, [none])], [(0, 2), (1, 2)], [2], 0⟩ [1] =
      some ⟨2, [1]⟩ ∧
    Query.run ⟨[(0, [some 5]), (1, [none])], [(0, 2), (1, 2)], [2], 0⟩
      ⟨2, [1]⟩ = none :=
  ⟨by decide, by decide, by decide⟩

/-- Claim C1 (amended): for every table state and every query whose filters
were all successfully added, whenever Query::run returns a result (it
panics when the column slot of a filtered type is missing for some matched
row), the result consists of exactly the rows whose bitmask ANDed with the
filter mask equals the filter mask, in strictly ascending order, with one
component list per filtered type in filter order, index-aligned with the
matched ids and holding the stored components. -/
theorem query_run_exact :
    ∀ (s : EntityStorage) (tys : List Nat) (q : Query) (r : QueryResult),
      buildQuery s tys = some q → Query.run s q = some r →
      QueryRunSpec s q r := by
  intro s tys q r hb hr
  rcases hcols : runColumns s (matchedIds s q.filter_mask) q.component_type_ids
    with _ | cols
  · simp only [Query.run, hcols] at hr
    exact Option.noConfusion hr
  · simp only [Query.run, hcols] at hr
    cases hr
    obtain ⟨hlen, hspec⟩ := runColumns_spec _ s _ cols hcols
    refine ⟨?_, ?_, ?_, ?_, ?_⟩
    · intro j
      exact mem_matchedIds
    · exact matchedIdsAux_pairwise _ _ 0
    · exact hlen
    · intro k hk
      rw [hlen] at hk
      obtain ⟨col, hcol, hext⟩ := hspec k hk
      exact (extractColumn_spec _ col _ hext).1
    · intro k t hk ht
      rw [hlen] at hk
      obtain ⟨col, hcol, hext⟩ := hspec k hk
      have hidx := (extractColumn_spec _ col _ hext).2 t ht
      simp only [storedAt, hcol]
      exact hidx

theorem query_run_exact_witness :
    buildQuery ⟨[(0, [some 10])], [(0, 1)], [1], 0⟩ [0] = some ⟨1, [0]⟩ ∧
    Query.run ⟨[(0, [some 10])], [(0, 1)], [1], 0⟩ ⟨1, [0]⟩ =
      some ⟨[0], [[10]]⟩ ∧
    QueryRunSpec ⟨[(0, [some 10])], [(0, 1)], [1], 0⟩ ⟨1, [0]⟩ ⟨[0], [[10]]⟩ :=
  ⟨by decide, by decide,
   query_run_exact ⟨[(0, [some 10])], [(0, 1)], [1], 0⟩ [0] ⟨1, [0]⟩
     ⟨[0], [[10]]⟩ (by decide) (by decide)⟩

/-! ### The registered-bit and mask-slot invariants -/

/-- Components and bitmask maps have the same registered keys. -/
def KeysEq (s : EntityStorage) : Prop :=
  ∀ ty, (alistFind ty s.components).isSome =
    (alistFind ty s.component_bitmasks).isSome

/-- The k-th bitmask entry holds the single bit 2 ^ k. -/
def Canon (s : EntityStorage) : Prop :=
  ∀ k, k < s.component_bitmasks.length →
    (s.component_bitmasks.getD k (0, 0)).2 = 2 ^ k

/-- A set mask bit of a row always has a filled column slot under it. -/
def Slots (s : EntityStorage) : Prop :=
  ∀ i ty m, i < s.entity_component_bitmasks.length →
    alistFind ty s.component_bitmasks = some m →
    s.entity_component_bitmasks.getD i 0 &&& m = m →
    ∃ col v, alistFind ty s.components = some col ∧ col.getD i none = some v

def Good (s : EntityStorage) : Prop := LenEq s ∧ KeysEq s ∧ Canon s ∧ Slots s

theorem canon_find_pow {s : EntityStorage} (hcn : Canon s) {ty m : Nat}
    (h : alistFind ty s.component_bitmasks = some m) :
    ∃ k, k < s.component_bitmasks.length ∧
      s.component_bitmasks.getD k (0, 0) = (ty, m) ∧ m = 2 ^ k := by
  obtain ⟨k, hk, hg⟩ := mem_getD_of_mem (0, 0) (alistFind_mem h)
  refine ⟨k, hk, hg, ?_⟩
  have h2 := hcn k hk
  rw [hg] at h2
  exact h2

theorem canon_find_inj {s : EntityStorage} (hcn : Canon s) {ty1 ty2 m : Nat}
    (h1 : alistFind ty1 s.component_bitmasks = some m)
    (h2 : alistFind ty2 s.component_bitmasks = some m) : ty1 = ty2 := by
  obtain ⟨k1, hk1, hg1, hp1⟩ := canon_find_pow hcn h1
  obtain ⟨k2, hk2, hg2, hp2⟩ := canon_find_pow hcn h2
  have hkk : k1 = k2 := by
    apply Nat.pow_right_injective (le_refl 2)
    show (2 : Nat) ^ k1 = 2 ^ k2
    rw [← hp1, ← hp2]
  subst hkk
  rw [hg1] at hg2
  exact congrArg Prod.fst hg2

/-- Writing a value into the column slot of a registered type at an
allocated row, while ORing its bit into the row mask, preserves Good.  This
is the common update shape of with_component and add_component_to_entity. -/
theorem good_update_slot {s : EntityStorage} {ty v i : Nat}
    {col : List (Option Nat)} {m : Nat} (hg : Good s)
    (hc : alistFind ty s.components = some col)
    (hm : alistFind ty s.component_bitmasks = some m)
    (hil : i < col.length)
    (him : i < s.entity_component_bitmasks.length) :
    Good { s with
      components := alistInsert ty (col.set i (some v)) s.components
      entity_component_bitmasks := s.entity_component_bitmasks.set i
        (s.entity_component_bitmasks.getD i 0 ||| m) } := by
  obtain ⟨hl, hk, hcn, hs⟩ := hg
  obtain ⟨kty, hkty, hgty, hpowty⟩ := canon_find_pow hcn hm
  refine ⟨?_, ?_, hcn, ?_⟩
  · intro p hp
    rcases mem_alistInsert hp with h1 | h2
    · subst h1
      show (col.set i (some v)).length =
        (s.entity_component_bitmasks.set i _).length
      rw [List.length_set, List.length_set]
      exact hl (ty, col) (alistFind_mem hc)
    · show p.2.length = (s.entity_component_bitmasks.set i _).length
      rw [List.length_set]
      exact hl p h2
  · intro ty2
    by_cases hty : ty2 = ty
    · subst hty
      show (alistFind ty2 (alistInsert ty2 (col.set i (some v))
          s.components)).isSome = (alistFind ty2 s.component_bitmasks).isSome
      rw [alistFind_insert_self, hm]
      rfl
    · show (alistFind ty2 (alistInsert ty (col.set i (some v))
          s.components)).isSome = (alistFind ty2 s.component_bitmasks).isSome
      rw [alistFind_insert_ne _ hty]
      exact hk ty2
  · intro i2 ty2 m2 hi2 hm2 hland
    have hi2b : i2 < s.entity_component_bitmasks.length := by
      have h3 : i2 < (s.entity_component_bitmasks.set i
          (s.entity_component_bitmasks.getD i 0 ||| m)).length := hi2
      rw [List.length_set] at h3
      exact h3
    obtain ⟨k2, hk2, hg2, hpow2⟩ := canon_find_pow hcn hm2
    by_cases hii : i2 = i
    · subst hii
      by_cases hty : ty2 = ty
      · subst hty
        refine ⟨col.set i2 (some v), v, ?_, ?_⟩
        · exact alistFind_insert_self _ _ _
        · exact getD_set_self none _ _ _ hil
      · -- the bit of a different type with the same position is impossible,
        -- so the bit was already set before the OR
        have hland2 : (s.entity_component_bitmasks.set i2
            (s.entity_component_bitmasks.getD i2 0 ||| m)).getD i2 0 &&& m2
            = m2 := hland
        rw [getD_set_self 0 _ _ _ him] at hland2
        rw [hpow2, land_two_pow_eq_iff] at hland2
        rw [hpowty, testBit_lor_two_pow] at hland2
        rcases Bool.or_eq_true_iff.mp hland2 with hold | heq
        · have hold2 : s.entity_component_bitmasks.getD i2 0 &&& m2 = m2 := by
            rw [hpow2]
            exact (land_two_pow_eq_iff _ _).mpr hold
          obtain ⟨col2, v2, hc2, hv2⟩ := hs i2 ty2 m2 hi2b hm2 hold2
          refine ⟨col2, v2, ?_, hv2⟩
          rw [alistFind_insert_ne _ hty]
          exact hc2
        · exfalso
          apply hty
          have hkk : kty = k2 := of_decide_eq_true heq
          have hmm : alistFind ty s.component_bitmasks = some m2 := by
            rw [hm, hpowty, hkk, hpow2]
          exact canon_find_inj hcn hm2 hmm
    · have hland2 : (s.entity_component_bitmasks.set i
          (s.entity_component_bitmasks.getD i 0 ||| m)).getD i2 0 &&& m2
          = m2 := hland
      rw [getD_set_ne 0 _ _ i i2 (fun h => hii h.symm)] at hland2
      obtain ⟨col2, v2, hc2, hv2⟩ := hs i2 ty2 m2 hi2b hm2 hland2
      by_cases hty : ty2 = ty
      · subst hty
        rw [hc] at hc2
        have hcol : col2 = col := Option.some_inj.mp hc2.symm
        subst hcol
        refine ⟨col2.set i (some v), v2, alistFind_insert_self _ _ _, ?_⟩
        rw [getD_set_ne none _ _ i i2 (fun h => hii h.symm)]
        exact hv2
      · refine ⟨col2, v2, ?_, hv2⟩
        rw [alistFind_insert_ne _ hty]
        exact hc2

theorem good_withComp {d : CompData} {s s2 : EntityStorage}
    (hg : Good s) (hok : with_component d s = OpResult.ok s2) : Good s2 := by
  obtain ⟨col, m, hc, hm, hl1, hl2, hs2⟩ := with_component_ok hok
  subst hs2
  exact good_update_slot hg hc hm hl1 hl2

theorem good_addComp {i : Nat} {d : CompData} {s s2 : EntityStorage}
    (hg : Good s) (hok : add_component_to_entity i d s = OpResult.ok s2) :
    Good s2 := by
  obtain ⟨m, col, hm, hc, hi, hcl, hs2⟩ := add_component_ok hok
  subst hs2
  exact good_update_slot hg hc hm hcl hi

theorem good_removeComp {ty i : Nat} {s s2 : EntityStorage}
    (hg : Good s) (hok : remove_entity_component ty i s = OpResult.ok s2) :
    Good s2 := by
  obtain ⟨hl, hk, hcn, hs⟩ := hg
  obtain ⟨m, hm, hi, hcase⟩ := remove_component_ok hok
  rcases hcase with h1 | ⟨h1, hcond⟩
  · subst h1
    exact ⟨hl, hk, hcn, hs⟩
  · subst h1
    obtain ⟨kty, hkty, hgty, hpowty⟩ := canon_find_pow hcn hm
    refine ⟨?_, hk, hcn, ?_⟩
    · intro p hp
      show p.2.length = (s.entity_component_bitmasks.set i _).length
      rw [List.length_set]
      exact hl p hp
    · intro i2 ty2 m2 hi2 hm2 hland
      have hi2b : i2 < s.entity_component_bitmasks.length := by
        have h3 : i2 < (s.entity_component_bitmasks.set i
            (s.entity_component_bitmasks.getD i 0 ^^^ m)).length := hi2
        rw [List.length_set] at h3
        exact h3
      obtain ⟨k2, hk2, hg2, hpow2⟩ := canon_find_pow hcn hm2
      by_cases hii : i2 = i
      · subst hii
        have hland2 : (s.entity_component_bitmasks.set i2
            (s.entity_component_bitmasks.getD i2 0 ^^^ m)).getD i2 0 &&& m2
            = m2 := hland
        rw [getD_set_self 0 _ _ _ hi] at hland2
        rw [hpow2, land_two_pow_eq_iff] at hland2
        rw [hpowty, testBit_xor_two_pow] at hland2
        by_cases hkk : kty = k2
        · exfalso
          have hb : (s.entity_component_bitmasks.getD i2 0).testBit k2 = true := by
            apply (land_two_pow_eq_iff _ _).mp
            rw [← hkk, ← hpowty]
            exact hcond
          rw [hkk, hb] at hland2
          simp at hland2
        · have hb : (s.entity_component_bitmasks.getD i2 0).testBit k2 = true := by
            simpa [hkk] using hland2
          have hold : s.entity_component_bitmasks.getD i2 0 &&& m2 = m2 := by
            rw [hpow2]
            exact (land_two_pow_eq_iff _ _).mpr hb
          exact hs i2 ty2 m2 hi hm2 hold
      · have hland2 : (s.entity_component_bitmasks.set i
            (s.entity_component_bitmasks.getD i 0 ^^^ m)).getD i2 0 &&& m2
            = m2 := hland
        rw [getD_set_ne 0 _ _ i i2 (fun h => hii h.symm)] at hland2
        exact hs i2 ty2 m2 hi2b hm2 hland2

theorem good_removeEnt {i : Nat} {s s2 : EntityStorage}
    (hg : Good s) (hok : remove_entity i s = OpResult.ok s2) : Good s2 := by
  obtain ⟨hl, hk, hcn, hs⟩ := hg
  obtain ⟨hi, hs2⟩ := remove_entity_ok hok
  subst hs2
  refine ⟨?_, hk, hcn, ?_⟩
  · intro p hp
    show p.2.length = (s.entity_component_bitmasks.set i 0).length
    rw [List.length_set]
    exact hl p hp
  · intro i2 ty2 m2 hi2 hm2 hland
    have hi2b : i2 < s.entity_component_bitmasks.length := by
      have h3 : i2 < (s.entity_component_bitmasks.set i 0).length := hi2
      rw [List.length_set] at h3
      exact h3
    obtain ⟨k2, hk2, hg2, hpow2⟩ := canon_find_pow hcn hm2
    by_cases hii : i2 = i
    · subst hii
      have hland2 : (s.entity_component_bitmasks.set i2 0).getD i2 0 &&& m2
          = m2 := hland
      rw [getD_set_self 0 _ _ _ hi, zero_land_eq] at hland2
      exfalso
      apply two_pow_ne_zero k2
      rw [← hpow2]
      exact hland2.symm
    · have hland2 : (s.entity_component_bitmasks.set i 0).getD i2 0 &&& m2
          = m2 := hland
      rw [getD_set_ne 0 _ _ i i2 (fun h => hii h.symm)] at hland2
      exact hs i2 ty2 m2 hi2b hm2 hland2

theorem good_create {s : EntityStorage} (hg : Good s) : Good (create_entity s) := by
  obtain ⟨hl, hk, hcn, hs⟩ := hg
  unfold create_entity
  rcases hf : findZeroIdx s.entity_component_bitmasks with _ | i
  · refine ⟨?_, ?_, hcn, ?_⟩
    · intro p hp
      obtain ⟨q, hq, hpq⟩ := List.mem_map.mp hp
      subst hpq
      show (q.2 ++ [none]).length = (s.entity_component_bitmasks ++ [0]).length
      simp [hl q hq]
    · intro ty2
      show (alistFind ty2 (s.components.map
        (fun p => (p.1, p.2 ++ [none])))).isSome =
        (alistFind ty2 s.component_bitmasks).isSome
      rw [alistFind_mapVal (fun c => c ++ [none]) ty2 s.components]
      rw [← hk ty2]
      cases alistFind ty2 s.components <;> rfl
    · intro i2 ty2 m2 hi2 hm2 hland
      obtain ⟨k2, hk2, hg2, hpow2⟩ := canon_find_pow hcn hm2
      have hi2b : i2 < s.entity_component_bitmasks.length + 1 := by
        have h3 : i2 < (s.entity_component_bitmasks ++ [0]).length := hi2
        simpa using h3
      by_cases hlt : i2 < s.entity_component_bitmasks.length
      · have hland2 : (s.entity_component_bitmasks ++ [0]).getD i2 0 &&& m2
            = m2 := hland
        rw [getD_append_lt 0 _ _ i2 hlt] at hland2
        obtain ⟨col2, v2, hc2, hv2⟩ := hs i2 ty2 m2 hlt hm2 hland2
        refine ⟨col2 ++ [none], v2, ?_, ?_⟩
        · rw [alistFind_mapVal (fun c => c ++ [none]) ty2 s.components, hc2]
          rfl
        · rw [getD_append_lt none _ _ i2 ?_]
          · exact hv2
          · rw [hl (ty2, col2) (alistFind_mem hc2)]
            exact hlt
      · have hi2e : i2 = s.entity_component_bitmasks.length := by omega
        subst hi2e
        have hland2 : (s.entity_component_bitmasks ++ [0]).getD
            s.entity_component_bitmasks.length 0 &&& m2 = m2 := hland
        rw [getD_append_len 0 0 _, zero_land_eq] at hland2
        exfalso
        apply two_pow_ne_zero k2
        rw [← hpow2]
        exact hland2.symm
  · exact ⟨hl, hk, hcn, hs⟩

theorem good_register_nil {ty : Nat} {s : EntityStorage}
    (hnil : s.entity_component_bitmasks = [])
    (hfresh : alistFind ty s.component_bitmasks = none)
    (hg : Good s) : Good (register_component ty s) := by
  obtain ⟨hl, hk, hcn, hs⟩ := hg
  have hbm : alistInsert ty (1 <<< s.component_bitmasks.length)
      s.component_bitmasks =
      s.component_bitmasks ++ [(ty, 1 <<< s.component_bitmasks.length)] :=
    alistInsert_of_find_none _ hfresh
  refine ⟨lenEq_register_nil hnil hl, ?_, ?_, ?_⟩
  · intro ty2
    by_cases hty : ty2 = ty
    · subst hty
      show (alistFind ty2 (alistInsert ty2 [] s.components)).isSome =
        (alistFind ty2 (alistInsert ty2 (1 <<< s.component_bitmasks.length)
          s.component_bitmasks)).isSome
      rw [alistFind_insert_self, alistFind_insert_self]
      rfl
    · show (alistFind ty2 (alistInsert ty [] s.components)).isSome =
        (alistFind ty2 (alistInsert ty (1 <<< s.component_bitmasks.length)
          s.component_bitmasks)).isSome
      rw [alistFind_insert_ne _ hty, alistFind_insert_ne _ hty]
      exact hk ty2
  · intro k hkl
    have hkl2 : k < (s.component_bitmasks ++
        [(ty, 1 <<< s.component_bitmasks.length)]).length := by
      have h3 : k < (alistInsert ty (1 <<< s.component_bitmasks.length)
          s.component_bitmasks).length := hkl
      rw [hbm] at h3
      exact h3
    show ((alistInsert ty (1 <<< s.component_bitmasks.length)
      s.component_bitmasks).getD k (0, 0)).2 = 2 ^ k
    rw [hbm]
    by_cases hlt : k < s.component_bitmasks.length
    · rw [getD_append_lt (0, 0) _ _ k hlt]
      exact hcn k hlt
    · have hke : k = s.component_bitmasks.length := by
        have h4 : k < s.component_bitmasks.length + 1 := by simpa using hkl2
        omega
      subst hke
      rw [getD_append_len (0, 0) _ _]
      show 1 <<< s.component_bitmasks.length = 2 ^ s.component_bitmasks.length
      rw [Nat.shiftLeft_eq, one_mul]
  · intro i2 ty2 m2 hi2 _ _
    exfalso
    have h3 : i2 < s.entity_component_bitmasks.length := hi2
    rw [hnil] at h3
    simp at h3

theorem withComp_ok_bm {d : CompData} {s s2 : EntityStorage}
    (h : with_component d s = OpResult.ok s2) :
    s2.component_bitmasks = s.component_bitmasks := by
  obtain ⟨_, _, _, _, _, _, hs2⟩ := with_component_ok h
  rw [hs2]

theorem runOps_good :
    ∀ (ops : List Op) (s s2 : EntityStorage), Good s →
      regsPrecedeCreate ops = true →
      (regTys ops).Nodup →
      (∀ t ∈ regTys ops, alistFind t s.component_bitmasks = none) →
      (regTys ops ≠ [] → s.entity_component_bitmasks = []) →
      runOps s ops = some s2 → Good s2 := by
  intro ops
  induction ops with
  | nil =>
    intro s s2 h _ _ _ _ hrun
    cases hrun
    exact h
  | cons op rest ih =>
    intro s s2 h hpre hnd hfreshAll hnil hrun
    simp only [runOps] at hrun
    rcases happ : applyOp s op with _ | s1
    · rw [happ] at hrun
      exact Option.noConfusion hrun
    · rw [happ] at hrun
      cases op with
      | register ty =>
        have hmask : s.entity_component_bitmasks = [] := by
          apply hnil
          intro hz
          exact List.noConfusion hz
        have hfr : alistFind ty s.component_bitmasks = none :=
          hfreshAll ty (List.mem_cons_self ty (regTys rest))
        have hndc : ty ∉ regTys rest ∧ (regTys rest).Nodup :=
          List.nodup_cons.mp hnd
        have hs1 : s1 = register_component ty s := by
          simp only [applyOp] at happ
          exact (Option.some_inj.mp happ).symm
        subst hs1
        refine ih _ s2 (good_register_nil hmask hfr h) hpre hndc.2 ?_
          (fun _ => hmask) hrun
        intro t2 ht2
        have hne : t2 ≠ ty := fun he => hndc.1 (he ▸ ht2)
        show alistFind t2 (alistInsert ty (1 <<< s.component_bitmasks.length)
          s.component_bitmasks) = none
        rw [alistFind_insert_ne _ hne]
        exact hfreshAll t2 (List.mem_cons_of_mem ty ht2)
      | create =>
        have hrt : regTys rest = [] := by
          simp only [regsPrecedeCreate] at hpre
          exact of_decide_eq_true hpre
        have hs1 : s1 = create_entity s := by
          simp only [applyOp] at happ
          exact (Option.some_inj.mp happ).symm
        subst hs1
        refine ih _ s2 (good_create h) (regsPrecedeCreate_of_no_regs rest hrt)
          ?_ ?_ (fun hne => absurd hrt hne) hrun
        · rw [hrt]
          exact List.nodup_nil
        · intro t ht
          rw [hrt] at ht
          exact absurd ht (List.not_mem_nil t)
      | withComp d =>
        by_cases hrt : regTys rest = []
        · have hgood1 : Good s1 := by
            simp only [applyOp] at happ
            rcases hw : with_component d s with s3 | e | _
            · rw [hw] at happ
              cases happ
              exact good_withComp h hw
            · rw [hw] at happ
              cases happ
              exact h
            · rw [hw] at happ
              exact Option.noConfusion happ
          refine ih s1 s2 hgood1 hpre ?_ ?_ (fun hne => absurd hrt hne) hrun
          · rw [hrt]
            exact List.nodup_nil
          · intro t ht
            rw [hrt] at ht
            exact absurd ht (List.not_mem_nil t)
        · have hmask : s.entity_component_bitmasks = [] := hnil hrt
          have hs1 : s1 = s := withComp_nil hmask s1 happ
          subst hs1
          exact ih _ s2 h hpre hnd hfreshAll (fun _ => hmask) hrun
      | addComp i d =>
        by_cases hrt : regTys rest = []
        · have hgood1 : Good s1 := by
            simp only [applyOp] at happ
            rcases hw : add_component_to_entity i d s with s3 | e | _
            · rw [hw] at happ
              cases happ
              exact good_addComp h hw
            · rw [hw] at happ
              cases happ
              exact h
            · rw [hw] at happ
              exact Option.noConfusion happ
          refine ih s1 s2 hgood1 hpre ?_ ?_ (fun hne => absurd hrt hne) hrun
          · rw [hrt]
            exact List.nodup_nil
          · intro t ht
            rw [hrt] at ht
            exact absurd ht (List.not_mem_nil t)
        · have hmask : s.entity_component_bitmasks = [] := hnil hrt
          have hs1 : s1 = s := addComp_nil hmask s1 happ
          subst hs1
          exact ih _ s2 h hpre hnd hfreshAll (fun _ => hmask) hrun
      | removeComp ty i =>
        by_cases hrt : regTys rest = []
        · have hgood1 : Good s1 := by
            simp only [applyOp] at happ
            rcases hw : remove_entity_component ty i s with s3 | e | _
            · rw [hw] at happ
              cases happ
              exact good_removeComp h hw
            · rw [hw] at happ
              cases happ
              exact h
            · rw [hw] at happ
              exact Option.noConfusion happ
          refine ih s1 s2 hgood1 hpre ?_ ?_ (fun hne => absurd hrt hne) hrun
          · rw [hrt]
            exact List.nodup_nil
          · intro t ht
            rw [hrt] at ht
            exact absurd ht (List.not_mem_nil t)
        · have hmask : s.entity_component_bitmasks = [] := hnil hrt
          have hs1 : s1 = s := removeComp_nil hmask s1 happ
          subst hs1
          exact ih _ s2 h hpre hnd hfreshAll (fun _ => hmask) hrun
      | removeEnt i =>
        by_cases hrt : regTys rest = []
        · have hgood1 : Good s1 := by
            simp only [applyOp] at happ
            rcases hw : remove_entity i s with s3 | e | _
            · rw [hw] at happ
              cases happ
              exact good_removeEnt h hw
            · rw [hw] at happ
              cases happ
              exact h
            · rw [hw] at happ
              exact Option.noConfusion happ
          refine ih s1 s2 hgood1 hpre ?_ ?_ (fun hne => absurd hrt hne) hrun
          · rw [hrt]
            exact List.nodup_nil
          · intro t ht
            rw [hrt] at ht
            exact absurd ht (List.not_mem_nil t)
        · have hmask : s.entity_component_bitmasks = [] := hnil hrt
          have hs1 : s1 = s := removeEnt_nil hmask s1 happ
          subst hs1
          exact ih _ s2 h hpre hnd hfreshAll (fun _ => hmask) hrun

theorem run_some_of_good {s : EntityStorage} (hg : Good s) {tys : List Nat}
    {q : Query} (hb : buildQuery s tys = some q) :
    ∃ r, Query.run s q = some r := by
  obtain ⟨hl, hk, hcn, hs⟩ := hg
  obtain ⟨htys, _, hall⟩ := buildQueryFrom_filters tys s Query.new q hb
  have hcond : ∀ ty ∈ q.component_type_ids,
      ∃ col, alistFind ty s.components = some col ∧
        ∀ i ∈ matchedIds s q.filter_mask, i < col.length ∧
          ∃ v, col.getD i none = some v := by
    intro ty hty
    rw [htys] at hty
    have hty2 : ty ∈ tys := by simpa [Query.new] using hty
    obtain ⟨m, hm, hmle⟩ := hall ty hty2
    have hks := hk ty
    rw [hm] at hks
    rcases hcf : alistFind ty s.components with _ | col
    · rw [hcf] at hks
      exact absurd hks (by simp)
    · refine ⟨col, rfl, ?_⟩
      intro i hi
      obtain ⟨hilt, hland⟩ := mem_matchedIds.mp hi
      have hle2 : maskLe q.filter_mask
          (s.entity_component_bitmasks.getD i 0) := hland
      have hle3 : maskLe m (s.entity_component_bitmasks.getD i 0) :=
        maskLe_trans hmle hle2
      obtain ⟨col2, v, hc2, hv⟩ := hs i ty m hilt hm hle3
      rw [hcf] at hc2
      have hcol : col2 = col := (Option.some_inj.mp hc2).symm
      subst hcol
      constructor
      · rw [hl (ty, col2) (alistFind_mem hcf)]
        exact hilt
      · exact ⟨v, hv⟩
  obtain ⟨cols, hcols⟩ := runColumns_some q.component_type_ids s _ hcond
  exact ⟨⟨matchedIds s q.filter_mask, cols⟩, by simp only [Query.run, hcols]⟩

/-! ### Claim C9: set bits always cover filled slots, and run cannot panic -/

/-- Claim C9 (counterexample): with [register A, register A, register B,
create, attach A] every registration precedes the first create, yet the
re-registration makes A and B share bit 2; after attaching A, row 0 carries
the bit of B while the column of B holds None, and the query filtered on B
panics inside run. -/
theorem slots_invariant_counterexample :
    regsPrecedeCreate
      [Op.register 0, Op.register 0, Op.register 1, Op.create,
       Op.withComp ⟨0, 5⟩] = true ∧
    runOps EntityStorage.empty
      [Op.register 0, Op.register 0, Op.register 1, Op.create,
       Op.withComp ⟨0, 5⟩] =
      some ⟨[(0, [some 5]), (1, [none])], [(0, 2), (1, 2)], [2], 0⟩ ∧
    alistFind 1 (⟨[(0, [some 5]), (1, [none])], [(0, 2), (1, 2)], [2], 0⟩ :
      EntityStorage).component_bitmasks = some 2 ∧
    (⟨[(0, [some 5]), (1, [none])], [(0, 2), (1, 2)], [2], 0⟩ :
      EntityStorage).entity_component_bitmasks.getD 0 0 &&& 2 = 2 ∧
    alistFind 1 (⟨[(0, [some 5]), (1, [none])], [(0, 2), (1, 2)], [2], 0⟩ :
      EntityStorage).components = some [none] ∧
    ([none] : List (Option Nat)).getD 0 none = none :=
  ⟨by decide, by decide, by decide, by decide, by decide, by decide⟩

/-- Claim C9 (amended): provided every register_component call precedes the
first create_entity and no component type is registered more than once,
every reachable table state satisfies: whenever the mask bit of a
registered type is set in an allocated row, the column slot of that type at
that row is Some; consequently a query whose filters were all added
successfully always returns from run without panicking. -/
theorem slots_invariant :
    ∀ (ops : List Op) (s2 : EntityStorage),
      regsPrecedeCreate ops = true →
      (regTys ops).Nodup →
      runOps EntityStorage.empty ops = some s2 →
      (∀ i ty m, i < s2.entity_component_bitmasks.length →
        alistFind ty s2.component_bitmasks = some m →
        s2.entity_component_bitmasks.getD i 0 &&& m = m →
        ∃ col v, alistFind ty s2.components = some col ∧
          col.getD i none = some v)
      ∧ (∀ (tys : List Nat) (q : Query), buildQuery s2 tys = some q →
          ∃ r, Query.run s2 q = some r) := by
  intro ops s2 hpre hnd hrun
  have hgood : Good s2 := by
    apply runOps_good ops EntityStorage.empty s2 ?_ hpre hnd
      (fun t _ => rfl) (fun _ => rfl) hrun
    refine ⟨?_, ?_, ?_, ?_⟩
    · intro p hp
      exact absurd hp (List.not_mem_nil p)
    · intro ty
      rfl
    · intro k hk
      exact absurd hk (Nat.not_lt_zero k)
    · intro i ty m hi _ _
      exact absurd hi (Nat.not_lt_zero i)
  exact ⟨hgood.2.2.2, fun tys q hb => run_some_of_good hgood hb⟩

theorem slots_invariant_witness :
    (∃ col v, alistFind 0 (⟨[(0, [some 9])], [(0, 1)], [1], 0⟩ :
        EntityStorage).components = some col ∧ col.getD 0 none = some v) ∧
    (∃ r, Query.run ⟨[(0, [some 9])], [(0, 1)], [1], 0⟩ ⟨1, [0]⟩ = some r) :=
  ⟨(slots_invariant [Op.register 0, Op.create, Op.withComp ⟨0, 9⟩]
      ⟨[(0, [some 9])], [(0, 1)], [1], 0⟩ (by decide) (by decide)
      (by decide)).1 0 0 1 (by decide) (by decide) (by decide),
   (slots_invariant [Op.register 0, Op.create, Op.withComp ⟨0, 9⟩]
      ⟨[(0, [some 9])], [(0, 1)], [1], 0⟩ (by decide) (by decide)
      (by decide)).2 [0] ⟨1, [0]⟩ (by decide)⟩
